import Mathlib

/-!
# PicoJSX (v2) reconciliation engine — shallow embedding

This file embeds the core of the PicoJSX library (the `h` factory, the
DOM materializer `createDOMElement`, the reconciler `diff`/`diffChildren`,
the disposal walker `unmountComponent`, the `Component` state/update
runtime, the deferred `componentDidMount` scheduling, and the store's
listener dispatch) as executable Lean definitions, and proves properties
of the reconciliation algorithm against them.

Modelling conventions:
* DOM nodes live in a heap `Nat → DNode`; node identity is the `Nat` id.
* Every observable side effect (attribute writes, insertions, removals,
  replacements, lifecycle hook invocations, ref invocations, store
  listener calls) is recorded in an event trace.
* JavaScript exceptions (both DOM API errors and exceptions thrown by
  user lifecycle hooks) are modelled by a `crashed` flag; once set, all
  subsequent operations are no-ops, mirroring an uncaught exception
  aborting the rest of the pass.
* The mutually recursive `createDOMElement` / `diff` / `diffChildren` /
  `unmountComponent` cluster is defunctionalized into a single
  fuel-indexed interpreter `run` over a `Call` type (one constructor per
  source function / inner loop), so that recursion is structural on the
  fuel and all definitions compute.
* Class components are modelled at the instance level (`Inst`,
  `Component.setState`, `Component.update`, the deferred-mount queue);
  the user-supplied `render` method is the stored function `renderF`.
-/

set_option maxHeartbeats 2000000
set_option linter.unusedVariables false
set_option linter.unnecessarySeqFocus false
set_option linter.unreachableTactic false
set_option linter.unusedTactic false
set_option linter.dupNamespace false

namespace Pico

/-- JavaScript values as they appear in props and keys.  Functions and
plain objects are represented by an identity tag, so that Lean equality
on `JVal` coincides with JavaScript `===` (reference equality for
objects).  `html` models a `dangerouslySetInnerHTML` payload
`\x7b __html: ... \x7d` (identity tag plus the `__html` string). -/
inductive JVal where
  | str (s : String)
  | num (n : Int)
  | bool (b : Bool)
  | nullv
  | undef
  | fn (id : Nat)
  | obj (id : Nat)
  | html (id : Nat) (payload : String)
deriving DecidableEq, Repr

/-- JavaScript truthiness. -/
def JVal.truthy : JVal → Bool
  | .str s => s ≠ ""
  | .num n => n ≠ 0
  | .bool b => b
  | .nullv => false
  | .undef => false
  | .fn _ => true
  | .obj _ => true
  | .html _ _ => true

/-- JavaScript `String(v)` coercion (as used by `setAttribute` and by
object-key stringification). -/
def JVal.jsString : JVal → String
  | .str s => s
  | .num n => toString n
  | .bool b => if b then "true" else "false"
  | .nullv => "null"
  | .undef => "undefined"
  | .fn id => "function#" ++ toString id
  | .obj id => "[object#" ++ toString id ++ "]"
  | .html id _ => "[object#" ++ toString id ++ "]"

/-- The `__html` member access `v?.__html` (undefined for non-`html`
values, the payload for `html` values), returned as a `JVal`. -/
def JVal.htmlMember : JVal → JVal
  | .html _ p => .str p
  | _ => (JVal.undef)

/-- `typeof v === 'function'`. -/
def JVal.isFn : JVal → Bool
  | .fn _ => true
  | _ => false

/-- `typeof v === 'string' || typeof v === 'object'` (the condition
under which the style branch writes `element.style`). -/
def JVal.isStyleish : JVal → Bool
  | .str _ => true
  | .obj _ => true
  | .html _ _ => true
  | _ => false

/-- A JS object as an ordered association list (insertion order, unique
names by construction in the library's own objects). -/
abbrev Obj := List (String × JVal)

/-- JS property read `o[k]`: `undefined` when absent. -/
def objGet (o : Obj) (k : String) : JVal :=
  match o.find? (fun p => p.1 = k) with
  | some p => p.2
  | none => (JVal.undef)

/-- JS `k in o`. -/
def objHas (o : Obj) (k : String) : Bool :=
  o.any (fun p => p.1 = k)

/-- JS property write `o[k] = v` (overwrites in place, else appends). -/
def objSet (o : Obj) (k : String) (v : JVal) : Obj :=
  if objHas o k then o.map (fun p => if p.1 = k then (k, v) else p)
  else o ++ [(k, v)]

/-- JS `Object.assign(target, src)` / spread-merge `\x7b...t, ...s\x7d`. -/
def objAssign (target src : Obj) : Obj :=
  src.foldl (fun t p => objSet t p.1 p.2) target

/-- `delete o[k]`. -/
def objDelete (o : Obj) (k : String) : Obj :=
  o.filter (fun p => p.1 ≠ k)

/-! ## Node descriptions (VNodes)

The intrinsic description kinds produced by `h`: text, primitive tag,
fragment.  Class components are modelled at the instance level (see
`Inst` below); functional components are executed eagerly by `h` in the
source and leave no trace in the description tree. -/

inductive VNode where
  | text (s : String)
  | elem (tag : String) (props : Obj) (key : JVal) (children : List VNode)
  | frag (props : Obj) (key : JVal) (children : List VNode)

/-- The `type` field of a VNode, for the reconciler's
`oldVNode.type !== newVNode.type` comparison ('#text' string, tag
string, or the Fragment symbol). -/
inductive VType where
  | textT
  | tagT (s : String)
  | fragT
deriving DecidableEq, Repr

def VNode.typeOf : VNode → VType
  | .text _ => .textT
  | .elem tag _ _ _ => .tagT tag
  | .frag _ _ _ => .fragT

/-- The `key` field: text VNodes are built without one (`undefined`);
`h`-built nodes always carry one (possibly `null`). -/
def VNode.keyOf : VNode → JVal
  | .text _ => .undef
  | .elem _ _ k _ => k
  | .frag _ k _ => k

def VNode.propsOf : VNode → Obj
  | .text _ => []
  | .elem _ p _ _ => p
  | .frag p _ _ => p

def VNode.childrenOf : VNode → List VNode
  | .text _ => []
  | .elem _ _ _ ch => ch
  | .frag _ _ ch => ch

/-- `diffChildren`'s keyed test on a child:
`child?.key !== null && child?.key !== undefined`. -/
def isKeyed (v : VNode) : Bool :=
  v.keyOf ≠ JVal.nullv ∧ v.keyOf ≠ JVal.undef

/-! ## The factory function `h` -/

/-- Argument to `h`'s variadic `...children`: an existing VNode, a raw
primitive, or a nested array (flattened with `flat(Infinity)`). -/
inductive HArg where
  | node (v : VNode)
  | raw (j : JVal)
  | list (l : List HArg)

/-- `children.flat(Infinity)`. -/
def flattenArgs : List HArg → List (VNode ⊕ JVal)
  | [] => []
  | .node v :: rest => .inl v :: flattenArgs rest
  | .raw j :: rest => .inr j :: flattenArgs rest
  | .list l :: rest => flattenArgs l ++ flattenArgs rest

/-- The intrinsic `type` arguments of `h` covered by the description
model: a primitive tag or the Fragment symbol. -/
inductive HType where
  | tag (s : String)
  | fragT

/-- `h(type, props, ...children)` for intrinsic types: flattens children,
drops `null`/`undefined`/boolean entries, converts remaining primitives
to text VNodes, extracts `key` from the props (`props?.key || null`) and
removes it from the materialized prop bag. -/
def h (type : HType) (props : Option Obj) (children : List HArg) : VNode :=
  let flat := flattenArgs children
  let filtered := flat.filter (fun c =>
    match c with
    | .inl _ => true
    | .inr j => ¬(j = JVal.nullv ∨ j = JVal.undef ∨ (∃ b, j = JVal.bool b)))
  let normalized := filtered.map (fun c =>
    match c with
    | .inl v => v
    | .inr j => VNode.text j.jsString)
  let key : JVal :=
    match props with
    | none => .nullv
    | some p => let k := objGet p "key"; if k.truthy then k else .nullv
  let restProps : Obj :=
    match props with
    | none => []
    | some p => objDelete p "key"
  match type with
  | .tag t => .elem t restProps key normalized
  | .fragT => .frag restProps key normalized

/-! ## Live DOM model -/

inductive DKind where
  | delem (tag : String)
  | dtext
  | dcomment
  | dfrag
deriving DecidableEq, Repr

structure DNode where
  kind : DKind := .dtext
  content : String := ""
  attrs : List (String × String) := []
  className : String := ""
  children : List Nat := []
  inst : Option Nat := none
  vn : Option VNode := none

/-- A stateful component instance (`Component` subclass object).
`renderF` is the user-supplied `render` method as a function of
(`this.state`, `this.props`); the `*Throws` flags model user hooks that
throw an exception when invoked. -/
structure Inst where
  props : Obj := []
  state : Obj := []
  prevState : Option Obj := none
  dom : Option Nat := none
  childVNode : Option VNode := none
  isMounted : Bool := false
  isUnmounted : Bool := false
  renderF : Obj → Obj → VNode := fun _ _ => .text ""
  cwuThrows : Bool := false
  cduThrows : Bool := false
  cdmThrows : Bool := false

/-- Observable events of a pass. -/
inductive Ev where
  | created (n : Nat)
  | inserted (n parent : Nat)
  | removed (n parent : Nat)
  | replaced (oldN newN parent : Nat)
  | setText (n : Nat) (s : String)
  | setAttr (n : Nat) (name v : String)
  | removeAttr (n : Nat) (name : String)
  | setClass (n : Nat) (v : String)
  | setStyle (n : Nat)
  | setHTML (n : Nat)
  | addListener (n : Nat) (evName : String) (f : Nat)
  | removeListener (n : Nat) (evName : String) (f : Nat)
  | refCall (f : Nat) (arg : Option Nat)
  | refSet (o : Nat) (arg : Option Nat)
  | willUnmount (i : Nat)
  | didMount (i : Nat)
  | didUpdate (i : Nat) (prevProps prevState curState : Obj)
  | listenerCall (l : Nat)
  | errorLogged
deriving DecidableEq, Repr

/-- Global state: DOM heap, parent pointers, instance heap, fresh-id
counter, event trace, deferred-mount queue, crash flag. -/
structure DState where
  nodes : Nat → DNode := fun _ => {}
  parentOf : Nat → Option Nat := fun _ => none
  insts : Nat → Inst := fun _ => {}
  fresh : Nat := 0
  trace : List Ev := []
  pending : List Nat := []
  crashed : Bool := false

def DState.emit (s : DState) (e : Ev) : DState :=
  if s.crashed then s else { s with trace := s.trace ++ [e] }

def DState.crash (s : DState) : DState :=
  { s with crashed := true }

def DState.setNode (s : DState) (n : Nat) (f : DNode → DNode) : DState :=
  if s.crashed then s
  else { s with nodes := fun m => if m = n then f (s.nodes n) else s.nodes m }

def DState.setParent (s : DState) (n : Nat) (p : Option Nat) : DState :=
  if s.crashed then s
  else { s with parentOf := fun m => if m = n then p else s.parentOf m }

def DState.setInst (s : DState) (i : Nat) (f : Inst → Inst) : DState :=
  if s.crashed then s
  else { s with insts := fun j => if j = i then f (s.insts i) else s.insts j }

/-- `parent.childNodes` (as a list of node ids). -/
def childNodes (s : DState) (n : Nat) : List Nat :=
  (s.nodes n).children

/-! ### DOM primitive operations

Each primitive is a no-op once `crashed` is set; a primitive that would
throw in the DOM (`removeChild`/`replaceChild`/`insertBefore` with a
node that is not a child, a property access on `undefined`) sets
`crashed`. -/

/-- Insert `x` immediately before the first occurrence of `ref`. -/
def insertBeforeList (l : List Nat) (x ref : Nat) : List Nat :=
  match l with
  | [] => [x]
  | y :: rest => if y = ref then x :: y :: rest else y :: insertBeforeList rest x ref

/-- Insert all of `xs` immediately before the first occurrence of `ref`. -/
def insertAllBeforeList (l : List Nat) (xs : List Nat) (ref : Nat) : List Nat :=
  match l with
  | [] => xs
  | y :: rest => if y = ref then xs ++ y :: rest else y :: insertAllBeforeList rest xs ref

/-- Replace the first occurrence of `ref` by the nodes `xs`. -/
def replaceInList (l : List Nat) (xs : List Nat) (ref : Nat) : List Nat :=
  match l with
  | [] => []
  | y :: rest => if y = ref then xs ++ rest else y :: replaceInList rest xs ref

/-- Detach a node from its current parent, silently (the implicit
detachment the DOM performs when an already-parented node is inserted
elsewhere — a "move"). -/
def detach (s : DState) (n : Nat) : DState :=
  if s.crashed then s else
  match s.parentOf n with
  | none => s
  | some q =>
      let s := s.setNode q (fun nd => { nd with children := nd.children.filter (· ≠ n) })
      s.setParent n none

/-- `parent.removeChild(child)`: throws when `child` is not a child of
`parent`. -/
def removeChild (s : DState) (p c : Nat) : DState :=
  if s.crashed then s else
  if c ∈ (s.nodes p).children then
    let s := s.setNode p (fun nd => { nd with children := nd.children.filter (· ≠ c) })
    let s := s.setParent c none
    s.emit (.removed c p)
  else s.crash

/-- The nodes that `insertBefore`/`appendChild`/`replaceChild` actually
splice in: a DocumentFragment contributes its children. -/
def spliceNodes (s : DState) (x : Nat) : List Nat :=
  if (s.nodes x).kind = .dfrag then (s.nodes x).children else [x]

/-- Common part of insertion: detach the payload nodes from their
current parents (emptying a DocumentFragment payload), without events. -/
def prepareInsert (s : DState) (x : Nat) : List Nat × DState :=
  let ks := spliceNodes s x
  if s.crashed then (ks, s) else
  if (s.nodes x).kind = .dfrag then
    let s := s.setNode x (fun nd => { nd with children := [] })
    (ks, s)
  else (ks, detach s x)

/-- Give every node in `ks` the parent `p` and emit insertion events. -/
def adopt (s : DState) (p : Nat) (ks : List Nat) : DState :=
  ks.foldl (fun s k => (s.setParent k (some p)).emit (.inserted k p)) s

/-- `parent.insertBefore(x, ref)`; `ref = none` behaves like
`appendChild`. -/
def insertBefore (s : DState) (p x : Nat) (ref : Option Nat) : DState :=
  if s.crashed then s else
  match ref with
  | none =>
      let pr := prepareInsert s x
      let s1 := pr.2.setNode p (fun nd => { nd with children := nd.children ++ pr.1 })
      adopt s1 p pr.1
  | some r =>
      if r ∈ (s.nodes p).children then
        let pr := prepareInsert s x
        let s1 := pr.2.setNode p (fun nd => { nd with children := insertAllBeforeList nd.children pr.1 r })
        adopt s1 p pr.1
      else s.crash

/-- `parent.appendChild(x)`. -/
def appendChild (s : DState) (p x : Nat) : DState :=
  insertBefore s p x none

/-- `parent.replaceChild(newN, oldN)`: throws when `oldN` is not a child
of `parent`. -/
def replaceChild (s : DState) (p newN oldN : Nat) : DState :=
  if s.crashed then s else
  if oldN ∈ (s.nodes p).children then
    let pr := prepareInsert s newN
    let s1 := pr.2.setNode p (fun nd => { nd with children := replaceInList nd.children pr.1 oldN })
    let s2 := s1.setParent oldN none
    let s3 := adopt s2 p pr.1
    s3.emit (.replaced oldN newN p)
  else s.crash

/-- `node.nextSibling` (pure read). -/
def nextSibling (s : DState) (n : Nat) : Option Nat :=
  match s.parentOf n with
  | none => none
  | some p =>
      let cs := (s.nodes p).children
      cs[cs.indexOf n + 1]?

/-- Allocate a fresh node in the heap. -/
def createNode (s : DState) (kind : DKind) (content : String) : Nat × DState :=
  if s.crashed then (s.fresh, s) else
  let id := s.fresh
  let s := { s with
    fresh := id + 1
    nodes := fun m => if m = id then { kind := kind, content := content } else s.nodes m }
  (id, s.emit (.created id))

/-! ### Attribute primitives -/

def attrGet (l : List (String × String)) (k : String) : Option String :=
  (l.find? (fun p => p.1 = k)).map (·.2)

def attrSet (l : List (String × String)) (k v : String) : List (String × String) :=
  if l.any (fun p => p.1 = k) then l.map (fun p => if p.1 = k then (k, v) else p)
  else l ++ [(k, v)]

def attrRemove (l : List (String × String)) (k : String) : List (String × String) :=
  l.filter (fun p => p.1 ≠ k)

/-- `element.setAttribute(name, v)`; throws when the element reference
is `undefined`. -/
def setAttribute (s : DState) (el : Option Nat) (name v : String) : DState :=
  if s.crashed then s else
  match el with
  | none => s.crash
  | some e =>
      let s := s.setNode e (fun nd => { nd with attrs := attrSet nd.attrs name v })
      s.emit (.setAttr e name v)

/-- `element.removeAttribute(name)`. -/
def removeAttribute (s : DState) (el : Option Nat) (name : String) : DState :=
  if s.crashed then s else
  match el with
  | none => s.crash
  | some e =>
      let s := s.setNode e (fun nd => { nd with attrs := attrRemove nd.attrs name })
      s.emit (.removeAttr e name)

/-- `element.className = v`. -/
def setClassName (s : DState) (el : Option Nat) (v : String) : DState :=
  if s.crashed then s else
  match el with
  | none => s.crash
  | some e =>
      let s := s.setNode e (fun nd => { nd with className := v })
      s.emit (.setClass e v)

/-- `dom.textContent = v`. -/
def setTextContent (s : DState) (el : Option Nat) (v : String) : DState :=
  if s.crashed then s else
  match el with
  | none => s.crash
  | some e =>
      let s := s.setNode e (fun nd => { nd with content := v })
      s.emit (.setText e v)

/-- Emit the side effect of invoking / assigning a ref with `arg`
(the element on attach, `null` on detach); a no-op for values that are
neither functions nor objects, like the source's `typeof` tests. -/
def refApply (s : DState) (v : JVal) (arg : Option Nat) : DState :=
  if s.crashed then s else
  match v with
  | .fn id => s.emit (.refCall id arg)
  | .obj id => s.emit (.refSet id arg)
  | .html id _ => s.emit (.refSet id arg)
  | _ => s

/-! ## Prop application (`applyProps`) and diffing (`updateProps`) -/

/-- `element.removeEventListener(name.substring(2).toLowerCase(), v)`
guarded by `typeof v === 'function'`. -/
def removeListenerOp (s : DState) (el : Option Nat) (name : String) (v : JVal) : DState :=
  if v.isFn then
    match el, v with
    | some e, .fn id => s.emit (.removeListener e ((name.drop 2).toLower) id)
    | _, _ => s.crash
  else s

/-- `element.addEventListener(name.substring(2).toLowerCase(), v)`
guarded by `typeof v === 'function'`. -/
def addListenerOp (s : DState) (el : Option Nat) (name : String) (v : JVal) : DState :=
  if v.isFn then
    match el, v with
    | some e, .fn id => s.emit (.addListener e ((name.drop 2).toLower) id)
    | _, _ => s.crash
  else s

/-- One iteration of `applyProps`' `for name in props` loop. -/
def applyProp (s : DState) (el : Option Nat) (name : String) (v : JVal) : DState :=
  if s.crashed then s else
  if name = "children" ∨ name = "key" then s
  else if name = "className" then
    setClassName s el (if v.truthy then v.jsString else "")
  else if name.startsWith "on" ∧ v.isFn then
    addListenerOp s el name v
  else if name = "dangerouslySetInnerHTML" then
    if v.htmlMember = JVal.undef then s
    else match el with
      | some e => s.emit (.setHTML e)
      | none => s.crash
  else if name = "style" then
    if v.isStyleish then
      match el with
      | some e => s.emit (.setStyle e)
      | none => s.crash
    else s
  else if name = "ref" then refApply s v el
  else if v = JVal.bool false ∨ v = JVal.nullv ∨ v = JVal.undef then
    removeAttribute s el name
  else if v = JVal.bool true then setAttribute s el name ""
  else setAttribute s el name v.jsString

/-- `applyProps(element, props)`: initial application of the prop bag. -/
def applyProps (s : DState) (el : Option Nat) (props : Obj) : DState :=
  props.foldl (fun s p => applyProp s el p.1 (objGet props p.1)) s

/-- First loop of `updateProps`: remove old props that are absent from
the new props. -/
def removeOldProp (s : DState) (el : Option Nat) (newP : Obj) (name : String)
    (oldValue : JVal) : DState :=
  if s.crashed then s else
  if objHas newP name then s
  else if name = "className" then setClassName s el ""
  else if name.startsWith "on" ∧ oldValue.isFn then
    removeListenerOp s el name oldValue
  else if name = "ref" then refApply s oldValue none
  else if name ≠ "children" ∧ name ≠ "key" ∧ name ≠ "dangerouslySetInnerHTML" then
    removeAttribute s el name
  else s

/-- Second loop of `updateProps`: set changed props. -/
def updateNewProp (s : DState) (el : Option Nat) (oldP newP : Obj)
    (name : String) : DState :=
  if s.crashed then s else
  if name = "children" ∨ name = "key" then s
  else if objGet oldP name = objGet newP name ∧ name ≠ "ref" then s
  else if name = "className" then
    match el with
    | none => s.crash
    | some e =>
        if (JVal.str (s.nodes e).className) = objGet newP name then s
        else setClassName s el
          (if (objGet newP name).truthy then (objGet newP name).jsString else "")
  else if name.startsWith "on" then
    addListenerOp (removeListenerOp s el name (objGet oldP name)) el name (objGet newP name)
  else if name = "dangerouslySetInnerHTML" then
    if (objGet newP name).htmlMember ≠ (objGet oldP name).htmlMember then
      match el with
      | some e => s.emit (.setHTML e)
      | none => s.crash
    else s
  else if name = "style" then
    match el with
    | some e => s.emit (.setStyle e)
    | none => s.crash
  else if name = "ref" then
    refApply
      (if (objGet oldP name).truthy ∧ objGet oldP name ≠ objGet newP name then
        refApply s (objGet oldP name) none
      else s)
      (objGet newP name) el
  else if objGet newP name = JVal.bool false ∨ objGet newP name = JVal.nullv ∨
      objGet newP name = JVal.undef then
    removeAttribute s el name
  else if objGet newP name = JVal.bool true then setAttribute s el name ""
  else
    match el with
    | none => s.crash
    | some e =>
        if attrGet (s.nodes e).attrs name = some (objGet newP name).jsString then s
        else setAttribute s el name (objGet newP name).jsString

/-- `updateProps(element, oldProps, newProps)`. -/
def updateProps (s : DState) (el : Option Nat) (oldP newP : Obj) : DState :=
  let s := oldP.foldl (fun s p => removeOldProp s el newP p.1 (objGet oldP p.1)) s
  newP.foldl (fun s p => updateNewProp s el oldP newP p.1) s

/-! ## The recursive cluster: builder / reconciler / disposal walker -/

/-- Walk `nextSibling` chains looking for the `fragment-end` comment
(the `while` loop locating the end marker in `diff`'s fragment branch). -/
def findEndMarker : Nat → DState → Option Nat → Option Nat
  | 0, _, _ => none
  | _, _, none => none
  | fuel+1, s, some n =>
      if (s.nodes n).kind = .dcomment ∧ (s.nodes n).content = "fragment-end" then some n
      else findEndMarker fuel s (nextSibling s n)

/-- Collect sibling nodes up to and including the `fragment-end`
comment (the `nodesToRemove` loop of `unmountComponent`'s marker case). -/
def collectUntilEnd : Nat → DState → Option Nat → List Nat
  | 0, _, _ => []
  | _, _, none => []
  | fuel+1, s, some n =>
      if (s.nodes n).kind = .dcomment ∧ (s.nodes n).content = "fragment-end" then [n]
      else n :: collectUntilEnd fuel s (nextSibling s n)

/-- An entry of `diffChildren`'s `oldKeyed` map. -/
structure OldEntry where
  vnode : VNode
  dom : Option Nat
  index : Nat

/-- JS-object write into the keyed map (keys stringified): overwrite the
existing binding in place, else append.  (Bindings in a JS object are
unique, so overwriting the first occurrence is overwriting the only
one.) -/
def entrySet : List (String × OldEntry) → String → OldEntry →
    List (String × OldEntry)
  | [], k, e => [(k, e)]
  | p :: rest, k, e =>
      if p.1 = k then (k, e) :: rest else p :: entrySet rest k e

def entryGet (m : List (String × OldEntry)) (k : String) : Option OldEntry :=
  (m.find? (fun p => p.1 = k)).map (·.2)

/-- The `oldKeyed` map: every old child carrying a key (`!== null`,
`!== undefined`) mapped from its stringified key to
`(vnode, oldElements[i], i)`.  (The source also builds a `newKeyed` map
that it never reads; it is omitted here.) -/
def buildOldKeyedAux (oldEls : List Nat) :
    List VNode → Nat → List (String × OldEntry) → List (String × OldEntry)
  | [], _, m => m
  | c :: rest, i, m =>
      buildOldKeyedAux oldEls rest (i+1)
        (if isKeyed c then entrySet m c.keyOf.jsString ⟨c, oldEls[i]?, i⟩
         else m)

def buildOldKeyed (oldCh : List VNode) (oldEls : List Nat) :
    List (String × OldEntry) :=
  buildOldKeyedAux oldEls oldCh 0 []

/-- The pairing step for one new child in `diffChildren`: a keyed child
looks up the old entry with the same key (any prior position); an
unkeyed child pairs positionally with the unconsumed old child at the
same index only if that candidate has no (truthy) key and the same
type.  Returns `(oldChild, oldDOM, matched)` as in the source. -/
def childMatch (oldKeyed : List (String × OldEntry)) (oldCh : List VNode)
    (oldEls : List Nat) (matched : List Nat) (newChild : VNode)
    (newIndex : Nat) : Option VNode × Option Nat × List Nat :=
  if isKeyed newChild then
    match entryGet oldKeyed newChild.keyOf.jsString with
    | some e => (some e.vnode, e.dom, e.index :: matched)
    | none => (none, none, matched)
  else
    if newIndex < oldCh.length ∧ newIndex ∉ matched then
      match oldCh[newIndex]? with
      | some cand =>
          if ¬cand.keyOf.truthy ∧ cand.typeOf = newChild.typeOf then
            (some cand, oldEls[newIndex]?, newIndex :: matched)
          else (none, none, matched)
      | none => (none, none, matched)
    else (none, none, matched)

/-- The instance-teardown block that the source repeats verbatim in
`unmountComponent` (twice) and in `diff`'s local `unmountChildren`:
fire `componentWillUnmount` if the node carries an instance that is not
yet unmounted, then flip the instance's flags.  A hook that throws
leaves the flags untouched (the statements after the call never run). -/
def unmountInstanceOn (s : DState) (d : Nat) : DState :=
  if s.crashed then s else
  match (s.nodes d).inst with
  | none => s
  | some i =>
      let s :=
        if ¬(s.insts i).isUnmounted then
          let s := s.emit (.willUnmount i)
          if (s.insts i).cwuThrows then s.crash else s
        else s
      s.setInst i (fun ins => { ins with isUnmounted := true, isMounted := false })

/-- The ref cleanup at the end of `unmountComponent`'s normal path. -/
def refCleanup (s : DState) (d : Nat) : DState :=
  if s.crashed then s else
  match (s.nodes d).vn with
  | none => s
  | some v =>
      if (objGet v.propsOf "ref").truthy then refApply s (objGet v.propsOf "ref") none
      else s

/-- Return record of the interpreter: the returned node
(`diff`/`createDOMElement`), a created fragment's start marker
(`vnode._startMarker`), and `diffChildren`'s `matched` set. -/
structure RV where
  node : Option Nat := none
  startM : Option Nat := none
  matched : List Nat := []

/-- One constructor per source function / inner loop of the mutually
recursive cluster:
* `cde v` — `createDOMElement(vnode)`;
* `cdeList` — its child-materialization loop;
* `dif` — `diff(parentDOM, dom, oldVNode, newVNode, index)`;
* `fragStep` — the positional child loop of `diff`'s fragment branch;
* `dch` — `diffChildren(parentDOM, oldChildren, newChildren)`;
* `dchLoop` — its `newChildren.forEach` loop (pairing, diffing, moving);
* `dchRemove` — its removal pass over unmatched old children;
* `ucomp` — `unmountComponent(dom)`;
* `ucompKids` — its live `childNodes.forEach` recursion;
* `urmAll` — the `nodesToRemove.forEach` loop of its marker case;
* `uch` / `uchKids` — `diff`'s local `unmountChildren` helper. -/
inductive Call where
  | cde (v : VNode)
  | cdeList (parent : Nat) (vs : List VNode)
  | dif (parentDOM : Nat) (dom : Option Nat) (oldV newV : Option VNode) (index : Nat)
  | fragStep (parentDOM : Nat) (endM : Nat) (oldCh newCh : List VNode) (cur : Option Nat)
  | dch (parentDOM : Option Nat) (oldCh newCh : List VNode)
  | dchLoop (parentDOM : Nat) (oldKeyed : List (String × OldEntry))
      (oldCh : List VNode) (oldEls : List Nat) (newCh : List VNode)
      (newIndex : Nat) (matched : List Nat)
  | dchRemove (parentDOM : Nat) (oldEls : List Nat) (matched : List Nat) (i len : Nat)
  | ucomp (d : Nat)
  | ucompKids (d : Nat) (i : Nat)
  | urmAll (ds : List Nat)
  | uch (dom : Option Nat)
  | uchKids (d : Nat) (i : Nat)

/-- Fuel-indexed interpreter for the recursive cluster.  Running out of
fuel is modelled as a crash (it never happens at adequate fuel, which
every theorem below either proves or assumes). -/
def run : Nat → Call → DState → RV × DState
  | 0, _, s => ({}, s.crash)
  | fuel+1, c, s =>
    match c with
    | .cde v =>
        match v with
        | .text str =>
            let c1 := createNode s .dtext str
            ({ node := some c1.1 }, c1.2)
        | .frag _ _ children =>
            let c1 := createNode s .dfrag ""
            let c2 := createNode c1.2 .dcomment "fragment-start"
            let s3 := appendChild c2.2 c1.1 c2.1
            let r4 := run fuel (.cdeList c1.1 children) s3
            let c5 := createNode r4.2 .dcomment "fragment-end"
            let s6 := appendChild c5.2 c1.1 c5.1
            ({ node := some c1.1, startM := some c2.1 }, s6)
        | .elem tag props _ children =>
            let c1 := createNode s (.delem tag) ""
            let s2 := applyProps c1.2 (some c1.1) props
            let r3 := run fuel (.cdeList c1.1 children) s2
            let s4 := r3.2.setNode c1.1 (fun nd => { nd with vn := some v })
            ({ node := some c1.1 }, s4)
    | .cdeList parent vs =>
        match vs with
        | [] => ({}, s)
        | v :: rest =>
            let r1 := run fuel (.cde v) s
            let s2 := match r1.1.node with
              | some n => appendChild r1.2 parent n
              | none => r1.2
            run fuel (.cdeList parent rest) s2
    | .dif parentDOM dom oldV newV index =>
        match oldV, newV with
        | none, none => ({ node := none }, s)
        | some _, none =>
            (match dom with
             | some d =>
                 let r1 := run fuel (.ucomp d) s
                 let s2 := removeChild r1.2 parentDOM d
                 ({ node := none }, s2)
             | none => ({ node := none }, s))
        | none, some nv =>
            let r1 := run fuel (.cde nv) s
            let s2 := match (childNodes r1.2 parentDOM)[index]? with
              | some ref => insertBefore r1.2 parentDOM (r1.1.node.getD 0) (some ref)
              | none => appendChild r1.2 parentDOM (r1.1.node.getD 0)
            ({ node := r1.1.node }, s2)
        | some ov, some nv =>
            if ov.typeOf ≠ nv.typeOf then
              let r1 := run fuel (.cde nv) s
              let r2 := run fuel (.uch dom) r1.2
              let s3 := match dom with
                | some d => replaceChild r2.2 parentDOM (r1.1.node.getD 0) d
                | none => r2.2.crash
              ({ node := r1.1.node }, s3)
            else match ov, nv with
            | .text ot, .text nt =>
                if ot ≠ nt then ({ node := dom }, setTextContent s dom nt)
                else ({ node := dom }, s)
            | .frag _ _ oldCh, .frag _ _ newCh =>
                let startMarker : Option Nat :=
                  match dom with
                  | some d =>
                      if (s.nodes d).kind = .dcomment ∧
                          (s.nodes d).content = "fragment-start" then some d
                      else none
                  | none => none
                let endMarker : Option Nat :=
                  match startMarker with
                  | some sm => findEndMarker fuel s (nextSibling s sm)
                  | none => none
                (match startMarker, endMarker with
                 | some sm, some em =>
                     let r1 := run fuel (.fragStep parentDOM em oldCh newCh (nextSibling s sm)) s
                     ({ node := some sm }, r1.2)
                 | _, _ =>
                     let r1 := run fuel (.cde nv) s
                     let s2 := match dom with
                       | some d =>
                           let r2 := run fuel (.ucomp d) r1.2
                           replaceChild r2.2 parentDOM (r1.1.node.getD 0) d
                       | none => appendChild r1.2 parentDOM (r1.1.node.getD 0)
                     ({ node := r1.1.startM }, s2))
            | .elem _ oldProps _ oldCh, .elem _ newProps _ newCh =>
                let s1 := updateProps s dom oldProps newProps
                let r2 := run fuel (.dch dom oldCh newCh) s1
                let s3 := match dom with
                  | some d => r2.2.setNode d (fun nd => { nd with vn := some nv })
                  | none => r2.2.crash
                ({ node := dom }, s3)
            | _, _ => ({ node := dom }, s)
    | .fragStep parentDOM endM oldCh newCh cur =>
        match oldCh, newCh with
        | [], [] => ({}, s)
        | _ :: oldRest, [] =>
            (match cur with
             | some c =>
                 if c ≠ endM then
                   let next := nextSibling s c
                   let r1 := run fuel (.ucomp c) s
                   let s2 := removeChild r1.2 parentDOM c
                   run fuel (.fragStep parentDOM endM oldRest [] next) s2
                 else run fuel (.fragStep parentDOM endM oldRest [] cur) s
             | none => run fuel (.fragStep parentDOM endM oldRest [] cur) s)
        | [], newChild :: newRest =>
            let r1 := run fuel (.cde newChild) s
            let s2 := insertBefore r1.2 parentDOM (r1.1.node.getD 0) (some endM)
            run fuel (.fragStep parentDOM endM [] newRest cur) s2
        | oldChild :: oldRest, newChild :: newRest =>
            (match cur with
             | some c =>
                 if c ≠ endM then
                   let next := nextSibling s c
                   let r1 := run fuel
                     (.dif parentDOM (some c) (some oldChild) (some newChild)
                       ((childNodes s parentDOM).indexOf c)) s
                   run fuel (.fragStep parentDOM endM oldRest newRest next) r1.2
                 else run fuel (.fragStep parentDOM endM oldRest newRest cur) s
             | none => run fuel (.fragStep parentDOM endM oldRest newRest cur) s)
    | .dch parentO oldCh newCh =>
        (match parentO with
         | none => ({}, s.crash)
         | some p =>
             let oldEls := childNodes s p
             let oldKeyed := buildOldKeyed oldCh oldEls
             let r1 := run fuel (.dchLoop p oldKeyed oldCh oldEls newCh 0 []) s
             run fuel (.dchRemove p oldEls r1.1.matched 0 oldCh.length) r1.2)
    | .dchLoop p oldKeyed oldCh oldEls newCh newIndex matched =>
        match newCh with
        | [] => ({ matched := matched }, s)
        | newChild :: rest =>
            let m := childMatch oldKeyed oldCh oldEls matched newChild newIndex
            let r1 := run fuel (.dif p m.2.1 m.1 (some newChild) newIndex) s
            let s2 := match r1.1.node with
              | some res =>
                  if (childNodes r1.2 p)[newIndex]? ≠ some res then
                    match (childNodes r1.2 p)[newIndex]? with
                    | some ref => insertBefore r1.2 p res (some ref)
                    | none => appendChild r1.2 p res
                  else r1.2
              | none => r1.2
            run fuel (.dchLoop p oldKeyed oldCh oldEls rest (newIndex+1) m.2.2) s2
    | .dchRemove p oldEls matched i len =>
        if i < len then
          let s2 :=
            if i ∉ matched then
              match oldEls[i]? with
              | some e =>
                  let r1 := run fuel (.ucomp e) s
                  if r1.2.parentOf e = some p then removeChild r1.2 p e else r1.2
              | none => s
            else s
          run fuel (.dchRemove p oldEls matched (i+1) len) s2
        else ({}, s)
    | .ucomp d =>
        if (s.nodes d).kind = .dcomment ∧ (s.nodes d).content = "fragment-start" ∧
            (s.parentOf d).isSome then
          run fuel (.urmAll (d :: collectUntilEnd fuel s (nextSibling s d))) s
        else
          let s1 := unmountInstanceOn s d
          let r2 := run fuel (.ucompKids d 0) s1
          ({}, refCleanup r2.2 d)
    | .ucompKids d i =>
        (match (childNodes s d)[i]? with
         | some c =>
             let r1 := run fuel (.ucomp c) s
             run fuel (.ucompKids d (i+1)) r1.2
         | none => ({}, s))
    | .urmAll ds =>
        match ds with
        | [] => ({}, s)
        | n :: rest =>
            let s2 :=
              if (s.parentOf n).isSome then
                let r1 := run fuel (.ucompKids n 0) s
                let s1 := unmountInstanceOn r1.2 n
                match s1.parentOf n with
                | some q => removeChild s1 q n
                | none => s1
              else s
            run fuel (.urmAll rest) s2
    | .uch dom =>
        (match dom with
         | none => ({}, s)
         | some d => run fuel (.uchKids d 0) s)
    | .uchKids d i =>
        match (childNodes s d)[i]? with
        | some c =>
            let r1 := run fuel (.uch (some c)) s
            let s2 := unmountInstanceOn r1.2 c
            run fuel (.uchKids d (i+1)) s2
        | none => ({}, s)

/-- `createDOMElement(vnode)` — returns the created node (and, for a
fragment, its start marker, the source's `vnode._startMarker`). -/
def createDOMElement (fuel : Nat) (v : VNode) (s : DState) : RV × DState :=
  run fuel (.cde v) s

/-- `diff(parentDOM, dom, oldVNode, newVNode, index)`. -/
def diff (fuel : Nat) (parentDOM : Nat) (dom : Option Nat)
    (oldV newV : Option VNode) (index : Nat) (s : DState) :
    Option Nat × DState :=
  let r := run fuel (.dif parentDOM dom oldV newV index) s
  (r.1.node, r.2)

/-- `diffChildren(parentDOM, oldChildren, newChildren)`. -/
def diffChildren (fuel : Nat) (parentDOM : Option Nat)
    (oldCh newCh : List VNode) (s : DState) : DState :=
  (run fuel (.dch parentDOM oldCh newCh) s).2

/-- `unmountComponent(dom)`. -/
def unmountComponent (fuel : Nat) (d : Nat) (s : DState) : DState :=
  (run fuel (.ucomp d) s).2

/-! ## Stateful-component runtime (`Component`)

The argument of `setState`: a partial state object or an updater
function of `(state, props)`. -/
inductive Updater where
  | obj (o : Obj)
  | fn (f : Obj → Obj → Obj)

namespace Component

/-- `Component.prototype.update`.  Returns without doing anything when
the instance has no live root node or is already unmounted; otherwise
re-renders, diffs against the previously rendered child description
rooted at the instance's live node, updates the stored root reference
and fires `componentDidUpdate(prevProps, prevState)` (the "updated"
notification, recorded with the current state the hook would read). -/
def update (fuel : Nat) (i : Nat) (s : DState) : DState :=
  if s.crashed then s else
  let inst := s.insts i
  match inst.dom with
  | none => s
  | some d =>
      if inst.isUnmounted then s else
      let prevProps := inst.props
      let prevState := inst.prevState.getD inst.state
      let s := s.setInst i (fun ins => { ins with prevState := none })
      let oldChildVNode := inst.childVNode
      let newChildVNode := inst.renderF inst.state inst.props
      let s := s.setInst i (fun ins => { ins with childVNode := some newChildVNode })
      match s.parentOf d with
      | none => s
      | some parentDOM =>
          let index := (childNodes s parentDOM).indexOf d
          let dr := diff fuel parentDOM (some d) oldChildVNode (some newChildVNode) index s
          let s1 := dr.2.setInst i (fun ins => { ins with dom := dr.1 })
          let s2 := s1.emit (.didUpdate i prevProps prevState (s1.insts i).state)
          if (s2.insts i).cduThrows then s2.crash else s2

/-- `Component.prototype.setState`: saves `\x7b...this.state\x7d` as
`_prevState` (unconditionally overwriting any previous capture), merges
the updater's result into the state in place, then triggers `update`
synchronously. -/
def setState (fuel : Nat) (i : Nat) (u : Updater) (s : DState) : DState :=
  if s.crashed then s else
  let inst := s.insts i
  let merged := objAssign inst.state
    (match u with
     | .obj o => o
     | .fn f => f inst.state inst.props)
  let s := s.setInst i (fun ins =>
    { ins with prevState := some ins.state, state := merged })
  update fuel i s

end Component

/-! ## Deferred "attached" notification (`setTimeout(..., 0)` queue) -/

/-- The registration of the deferred `componentDidMount` callback in
`createDOMElement`'s class-component branch: queued only when the
instance is not already mounted (the base class always defines the
hook, so the `typeof` test always passes). -/
def queueMount (s : DState) (i : Nat) : DState :=
  if s.crashed then s else
  if ¬(s.insts i).isMounted then { s with pending := s.pending ++ [i] }
  else s

/-- The body of the deferred callback: fire `componentDidMount` and set
the mounted flag, unless the instance has been unmounted meanwhile
(the cancellation check). -/
def runTimeout (i : Nat) (s : DState) : DState :=
  if s.crashed then s else
  if ¬(s.insts i).isUnmounted then
    let s := s.emit (.didMount i)
    let s := if (s.insts i).cdmThrows then s.crash else s
    s.setInst i (fun ins => { ins with isMounted := true })
  else s

/-- Drain the deferred-callback queue (a later turn of the event loop). -/
def runAllPending (s : DState) : DState :=
  (s.pending.foldl (fun t i => runTimeout i t) { s with pending := [] })

/-! ## Global store (`createStore`) — listener dispatch

Only the listener-notification part matters to the claims; the optional
`localStorage` persistence is out of scope (its failures are caught by
the store itself).  A listener is represented by its identity and
whether it throws when invoked. -/

structure StoreListener where
  id : Nat
  throws : Bool

structure Store where
  state : Obj := []
  listeners : List StoreListener := []

inductive StoreUpdater where
  | obj (o : Obj)
  | fn (f : Obj → Obj)

/-- The store's `setState`: computes the new state, then notifies every
listener in order; each invocation is wrapped in `try/catch`, so a
throwing listener is logged (`console.error`) and the loop continues
with the remaining listeners. -/
def storeSetState (st : Store) (u : StoreUpdater) (tr : List Ev) :
    Store × List Ev :=
  let newState := match u with
    | .fn f => f st.state
    | .obj o => objAssign st.state o
  let tr := st.listeners.foldl (fun tr l =>
    let tr := tr ++ [Ev.listenerCall l.id]
    if l.throws then tr ++ [Ev.errorLogged] else tr) tr
  ({ st with state := newState }, tr)

/-! ## Whole-lifetime operations

The externally triggerable entry points of the engine, for stating
temporal ("over the whole lifetime") properties as invariants over
arbitrary operation sequences. -/

inductive Op where
  | difOp (parentDOM : Nat) (dom : Option Nat) (oldV newV : Option VNode) (index : Nat)
  | dchOp (parentDOM : Option Nat) (oldCh newCh : List VNode)
  | cdeOp (v : VNode)
  | ucompOp (d : Nat)
  | setStateOp (i : Nat) (u : Updater)
  | updateOp (i : Nat)
  | timeoutOp (i : Nat)

def applyOp (fuel : Nat) (s : DState) : Op → DState
  | .difOp p d o n i => (run fuel (.dif p d o n i) s).2
  | .dchOp p o n => (run fuel (.dch p o n) s).2
  | .cdeOp v => (run fuel (.cde v) s).2
  | .ucompOp d => (run fuel (.ucomp d) s).2
  | .setStateOp i u => Component.setState fuel i u s
  | .updateOp i => Component.update fuel i s
  | .timeoutOp i => runTimeout i s

def applyOps (fuel : Nat) (ops : List Op) (s : DState) : DState :=
  ops.foldl (applyOp fuel) s

/-! ## Basic lemmas: a crashed pass stays inert -/

theorem crash_self {s : DState} (h : s.crashed = true) : s.crash = s := by
  cases s
  simp only [DState.crash] at *
  simp_all

theorem emit_crashed {s : DState} (h : s.crashed = true) (e : Ev) : s.emit e = s := by
  simp [DState.emit, h]

theorem setNode_crashed {s : DState} (h : s.crashed = true) (n : Nat) (f : DNode → DNode) :
    s.setNode n f = s := by
  simp [DState.setNode, h]

theorem setParent_crashed {s : DState} (h : s.crashed = true) (n : Nat) (p : Option Nat) :
    s.setParent n p = s := by
  simp [DState.setParent, h]

theorem setInst_crashed {s : DState} (h : s.crashed = true) (i : Nat) (f : Inst → Inst) :
    s.setInst i f = s := by
  simp [DState.setInst, h]

theorem detach_crashed {s : DState} (h : s.crashed = true) (n : Nat) : detach s n = s := by
  simp [detach, h]

theorem removeChild_crashed {s : DState} (h : s.crashed = true) (p c : Nat) :
    removeChild s p c = s := by
  simp [removeChild, h]

theorem prepareInsert_crashed {s : DState} (h : s.crashed = true) (x : Nat) :
    prepareInsert s x = (spliceNodes s x, s) := by
  simp [prepareInsert, h]

theorem adopt_crashed {s : DState} (h : s.crashed = true) (p : Nat) (ks : List Nat) :
    adopt s p ks = s := by
  induction ks generalizing s with
  | nil => rfl
  | cons k rest ih =>
      simp only [adopt, List.foldl_cons] at *
      rw [setParent_crashed h, emit_crashed h, ih h]

theorem insertBefore_crashed {s : DState} (h : s.crashed = true) (p x : Nat) (ref : Option Nat) :
    insertBefore s p x ref = s := by
  simp [insertBefore, h]

theorem appendChild_crashed {s : DState} (h : s.crashed = true) (p x : Nat) :
    appendChild s p x = s := by
  simp [appendChild, insertBefore, h]

theorem replaceChild_crashed {s : DState} (h : s.crashed = true) (p x y : Nat) :
    replaceChild s p x y = s := by
  simp [replaceChild, h]

theorem createNode_crashed {s : DState} (h : s.crashed = true) (k : DKind) (c : String) :
    createNode s k c = (s.fresh, s) := by
  simp [createNode, h]

theorem setAttribute_crashed {s : DState} (h : s.crashed = true) (el : Option Nat) (n v : String) :
    setAttribute s el n v = s := by
  simp [setAttribute, h]

theorem removeAttribute_crashed {s : DState} (h : s.crashed = true) (el : Option Nat) (n : String) :
    removeAttribute s el n = s := by
  simp [removeAttribute, h]

theorem setClassName_crashed {s : DState} (h : s.crashed = true) (el : Option Nat) (v : String) :
    setClassName s el v = s := by
  simp [setClassName, h]

theorem setTextContent_crashed {s : DState} (h : s.crashed = true) (el : Option Nat) (v : String) :
    setTextContent s el v = s := by
  simp [setTextContent, h]

theorem refApply_crashed {s : DState} (h : s.crashed = true) (v : JVal) (arg : Option Nat) :
    refApply s v arg = s := by
  simp [refApply, h]

theorem applyProp_crashed {s : DState} (h : s.crashed = true) (el : Option Nat)
    (name : String) (v : JVal) : applyProp s el name v = s := by
  simp [applyProp, h]

/-- A fold whose steps are inert on a crashed state is inert. -/
theorem foldl_crashed {α : Type} (f : DState → α → DState)
    (hf : ∀ s a, s.crashed = true → f s a = s) (l : List α) :
    ∀ s : DState, s.crashed = true → l.foldl f s = s := by
  induction l with
  | nil => intro s _; rfl
  | cons a rest ih =>
      intro s h
      simp only [List.foldl_cons]
      rw [hf s a h]
      exact ih s h

theorem applyProps_crashed {s : DState} (h : s.crashed = true) (el : Option Nat) (props : Obj) :
    applyProps s el props = s :=
  foldl_crashed _ (fun s a hs => applyProp_crashed hs el a.1 (objGet props a.1)) props s h

theorem removeOldProp_crashed {s : DState} (h : s.crashed = true) (el : Option Nat)
    (newP : Obj) (name : String) (v : JVal) : removeOldProp s el newP name v = s := by
  simp [removeOldProp, h]

theorem updateNewProp_crashed {s : DState} (h : s.crashed = true) (el : Option Nat)
    (oldP newP : Obj) (name : String) : updateNewProp s el oldP newP name = s := by
  simp [updateNewProp, h]

theorem updateProps_crashed {s : DState} (h : s.crashed = true) (el : Option Nat)
    (oldP newP : Obj) : updateProps s el oldP newP = s := by
  unfold updateProps
  rw [foldl_crashed _ (fun s a hs => removeOldProp_crashed hs el newP a.1 (objGet oldP a.1)) oldP s h]
  exact foldl_crashed _ (fun s a hs => updateNewProp_crashed hs el oldP newP a.1) newP s h

theorem unmountInstanceOn_crashed {s : DState} (h : s.crashed = true) (d : Nat) :
    unmountInstanceOn s d = s := by
  simp [unmountInstanceOn, h]

theorem refCleanup_crashed {s : DState} (h : s.crashed = true) (d : Nat) :
    refCleanup s d = s := by
  simp [refCleanup, h]

/-- Once an exception has been thrown, the rest of the pass does
nothing: the interpreter leaves a crashed state untouched. -/
theorem run_crashed :
    ∀ (fuel : Nat) (c : Call) (s : DState), s.crashed = true → (run fuel c s).2 = s := by
  intro fuel
  induction fuel with
  | zero => intro c s h; simp [run, crash_self h]
  | succ fuel ih =>
      intro c s h
      cases c with
      | cde v =>
          cases v <;>
            simp [run, createNode_crashed, appendChild_crashed, applyProps_crashed,
              setNode_crashed, h, ih]
      | cdeList parent vs =>
          cases vs with
          | nil => simp [run]
          | cons v rest =>
              simp only [run]
              cases hn : (run fuel (.cde v) s).1.node <;>
                simp [hn, ih _ _ h, appendChild_crashed h, ih]
      | dif parentDOM dom oldV newV index =>
          cases oldV with
          | none =>
              cases newV with
              | none => simp [run]
              | some nv =>
                  simp only [run]
                  simp [ih _ _ h, insertBefore_crashed h, appendChild_crashed h]
                  split <;> rfl
          | some ov =>
              cases newV with
              | none =>
                  cases dom <;>
                    simp [run, ih, removeChild_crashed, h]
              | some nv =>
                  simp only [run]
                  by_cases ht : ov.typeOf = nv.typeOf
                  · simp only [ht, ne_eq, not_true_eq_false, if_neg, ite_false,
                      not_not, if_pos]
                    cases ov <;> cases nv <;>
                      simp_all [run, ih, setTextContent_crashed, updateProps_crashed,
                        setNode_crashed, crash_self, createNode_crashed,
                        appendChild_crashed, replaceChild_crashed] <;>
                      (try split) <;>
                      simp_all [ih, replaceChild_crashed, appendChild_crashed,
                        crash_self, setNode_crashed] <;>
                      (try split) <;>
                      simp_all [ih, replaceChild_crashed, appendChild_crashed, crash_self]
                  · simp only [ne_eq, ht, not_false_eq_true, if_pos, ite_true]
                    cases dom <;>
                      simp [ih, replaceChild_crashed, crash_self, h]
      | fragStep parentDOM endM oldCh newCh cur =>
          cases oldCh with
          | nil =>
              cases newCh with
              | nil => simp [run]
              | cons nc nrest =>
                  simp [run, ih, insertBefore_crashed, h]
          | cons oc orest =>
              cases newCh with
              | nil =>
                  cases cur with
                  | none => simp [run, ih, h]
                  | some cnode =>
                      by_cases hc : cnode = endM <;>
                        simp [run, hc, ih, removeChild_crashed, h]
              | cons nc nrest =>
                  cases cur with
                  | none => simp [run, ih, h]
                  | some cnode =>
                      by_cases hc : cnode = endM <;>
                        simp [run, hc, ih, h]
      | dch parentO oldCh newCh =>
          cases parentO <;> simp [run, ih, crash_self, h]
      | dchLoop p oldKeyed oldCh oldEls newCh newIndex matched =>
          cases newCh with
          | nil => simp [run]
          | cons nc rest =>
              simp only [run]
              cases hn : (run fuel (.dif p (childMatch oldKeyed oldCh oldEls matched nc newIndex).2.1
                  (childMatch oldKeyed oldCh oldEls matched nc newIndex).1 (some nc) newIndex) s).1.node with
              | none => simp [hn, ih _ _ h, ih]
              | some res =>
                  simp only [hn, ih _ _ h]
                  split
                  · split <;> simp [insertBefore_crashed h, appendChild_crashed h, ih _ _ h]
                  · simp [ih _ _ h]
      | dchRemove p oldEls matched i len =>
          simp only [run]
          split
          · split
            · cases hx : oldEls[i]? with
              | none => simp [ih _ _ h]
              | some e =>
                  simp only [hx, ih _ _ h]
                  split <;> simp [removeChild_crashed h, ih _ _ h, ih]
            · simp [ih _ _ h]
          · rfl
      | ucomp d =>
          simp only [run]
          split
          · simp [ih _ _ h]
          · simp [unmountInstanceOn_crashed h, ih _ _ h, refCleanup_crashed h, ih]
      | ucompKids d i =>
          simp only [run]
          split <;> simp [ih _ _ h, ih]
      | urmAll ds =>
          cases ds with
          | nil => simp [run]
          | cons n rest =>
              simp only [run]
              split
              · simp only [ih _ _ h, unmountInstanceOn_crashed h]
                split <;> simp [removeChild_crashed h, ih _ _ h, ih]
              · simp [ih _ _ h]
      | uch dom =>
          cases dom <;> simp [run, ih, h]
      | uchKids d i =>
          simp only [run]
          split <;> simp [ih _ _ h, unmountInstanceOn_crashed h, ih]

/-! ## "about-to-detach" fires at most once: the invariant machinery

`cwuCount` counts the `componentWillUnmount` invocations recorded for an
instance; `Tame` describes a step that emits no such invocation, never
resurrects an unmounted instance, and never clears the crash flag; the
invariant `Inv` ties the count to the instance flags. -/

def cwuCount (tr : List Ev) (i : Nat) : Nat :=
  tr.count (Ev.willUnmount i)

/-- A state step that cannot fire "about-to-detach" and cannot
resurrect an unmounted instance. -/
structure Tame (s s' : DState) : Prop where
  trace : ∃ δ, s'.trace = s.trace ++ δ ∧ ∀ e ∈ δ, ∀ i, e ≠ Ev.willUnmount i
  unm : ∀ i, (s'.insts i).isUnmounted = (s.insts i).isUnmounted ∨
      (s'.insts i).isUnmounted = true
  cr : s.crashed = true → s'.crashed = true

/-- The "at most once" invariant: an instance's recorded
"about-to-detach" count is at most one, and it is zero while the
instance is still mounted (unless the pass died first). -/
def Inv (s : DState) : Prop :=
  ∀ i, cwuCount s.trace i ≤ 1 ∧
    ((s.insts i).isUnmounted = false → s.crashed = true ∨ cwuCount s.trace i = 0)

theorem cwuCount_append (tr δ : List Ev) (i : Nat) :
    cwuCount (tr ++ δ) i = cwuCount tr i + cwuCount δ i := by
  simp [cwuCount, List.count_append]

theorem cwuCount_nil_of_no (δ : List Ev) (i : Nat)
    (hδ : ∀ e ∈ δ, ∀ j, e ≠ Ev.willUnmount j) : cwuCount δ i = 0 := by
  simp only [cwuCount, List.count_eq_zero]
  intro hmem
  exact hδ _ hmem i rfl

theorem tame_refl (s : DState) : Tame s s :=
  ⟨⟨[], by simp, by simp⟩, fun _ => Or.inl rfl, fun h => h⟩

theorem tame_trans {s s' s'' : DState} (h1 : Tame s s') (h2 : Tame s' s'') :
    Tame s s'' := by
  refine ⟨?_, ?_, fun h => h2.cr (h1.cr h)⟩
  · obtain ⟨δ1, he1, hn1⟩ := h1.trace
    obtain ⟨δ2, he2, hn2⟩ := h2.trace
    refine ⟨δ1 ++ δ2, by simp [he2, he1], ?_⟩
    intro e he i
    rcases List.mem_append.mp he with h | h
    · exact hn1 e h i
    · exact hn2 e h i
  · intro i
    rcases h2.unm i with h | h
    · rw [h]; exact h1.unm i
    · exact Or.inr h

theorem Inv_of_tame {s s' : DState} (ht : Tame s s') (hi : Inv s) : Inv s' := by
  intro i
  obtain ⟨δ, he, hn⟩ := ht.trace
  have hc : cwuCount s'.trace i = cwuCount s.trace i := by
    rw [he, cwuCount_append, cwuCount_nil_of_no δ i hn]
    omega
  constructor
  · rw [hc]; exact (hi i).1
  · intro hun
    have hsu : (s.insts i).isUnmounted = false := by
      rcases ht.unm i with h | h
      · rw [← h]; exact hun
      · rw [h] at hun; cases hun
    rcases (hi i).2 hsu with h | h
    · exact Or.inl (ht.cr h)
    · exact Or.inr (hc ▸ h)

/-! Tame-ness of the primitive operations. -/

theorem tame_emit_other {s : DState} {e : Ev}
    (he : ∀ i, e ≠ Ev.willUnmount i) : Tame s (s.emit e) := by
  unfold DState.emit
  by_cases h : s.crashed = true
  · simp only [h, if_true]; exact tame_refl s
  · simp only [h]
    refine ⟨⟨[e], by simp, by simpa using he⟩, fun _ => Or.inl rfl, fun hc => by simp_all⟩

theorem tame_crash {s : DState} : Tame s s.crash :=
  ⟨⟨[], by simp [DState.crash], by simp⟩, fun _ => Or.inl rfl, fun _ => rfl⟩

theorem tame_setNode {s : DState} {n : Nat} {f : DNode → DNode} :
    Tame s (s.setNode n f) := by
  unfold DState.setNode
  split
  · exact tame_refl s
  · exact ⟨⟨[], by simp, by simp⟩, fun _ => Or.inl rfl, fun hc => hc⟩

theorem tame_setParent {s : DState} {n : Nat} {p : Option Nat} :
    Tame s (s.setParent n p) := by
  unfold DState.setParent
  split
  · exact tame_refl s
  · exact ⟨⟨[], by simp, by simp⟩, fun _ => Or.inl rfl, fun hc => hc⟩

/-- `setInst` steps that do not modify the unmounted flag are tame. -/
theorem tame_setInst {s : DState} {j : Nat} {f : Inst → Inst}
    (hf : ∀ ins, (f ins).isUnmounted = ins.isUnmounted) :
    Tame s (s.setInst j f) := by
  unfold DState.setInst
  split
  · exact tame_refl s
  · refine ⟨⟨[], by simp, by simp⟩, fun i => ?_, fun hc => hc⟩
    by_cases hij : i = j <;> simp [hij, hf]

theorem tame_createNode {s : DState} {k : DKind} {c : String} :
    Tame s (createNode s k c).2 := by
  unfold createNode
  split
  · exact tame_refl s
  · dsimp only
    exact @tame_trans s
      { s with
        fresh := s.fresh + 1
        nodes := fun m => if m = s.fresh then { kind := k, content := c } else s.nodes m }
      _
      ⟨⟨[], by simp, by simp⟩, fun _ => Or.inl rfl, fun hc => hc⟩
      (tame_emit_other (by intro i; simp))

theorem tame_detach {s : DState} {n : Nat} : Tame s (detach s n) := by
  unfold detach
  split
  · exact tame_refl s
  · split
    · exact tame_refl s
    · exact tame_trans tame_setNode tame_setParent

theorem tame_removeChild {s : DState} {p c : Nat} : Tame s (removeChild s p c) := by
  unfold removeChild
  split
  · exact tame_refl s
  · split
    · exact tame_trans (tame_trans tame_setNode tame_setParent)
        (tame_emit_other (by intro i; simp))
    · exact tame_crash

theorem tame_prepareInsert {s : DState} {x : Nat} : Tame s (prepareInsert s x).2 := by
  unfold prepareInsert
  split
  · dsimp only; exact tame_refl s
  · split
    · dsimp only; exact tame_setNode
    · dsimp only; exact tame_detach

theorem tame_foldl {α : Type} {f : DState → α → DState}
    (hf : ∀ s a, Tame s (f s a)) (l : List α) (s : DState) :
    Tame s (l.foldl f s) := by
  induction l generalizing s with
  | nil => exact tame_refl s
  | cons a rest ih => exact tame_trans (hf s a) (ih _)

theorem tame_adopt {s : DState} {p : Nat} {ks : List Nat} : Tame s (adopt s p ks) := by
  unfold adopt
  exact tame_foldl
    (fun s k => tame_trans tame_setParent (tame_emit_other (by intro i; simp))) ks s

theorem tame_insertBefore {s : DState} {p x : Nat} {ref : Option Nat} :
    Tame s (insertBefore s p x ref) := by
  unfold insertBefore
  split
  · exact tame_refl s
  · split
    · exact tame_trans (tame_trans tame_prepareInsert tame_setNode) tame_adopt
    · split
      · exact tame_trans (tame_trans tame_prepareInsert tame_setNode) tame_adopt
      · exact tame_crash

theorem tame_appendChild {s : DState} {p x : Nat} : Tame s (appendChild s p x) :=
  tame_insertBefore

theorem tame_replaceChild {s : DState} {p x y : Nat} : Tame s (replaceChild s p x y) := by
  unfold replaceChild
  split
  · exact tame_refl s
  · split
    · exact tame_trans
        (tame_trans (tame_trans (tame_trans tame_prepareInsert tame_setNode) tame_setParent)
          tame_adopt)
        (tame_emit_other (by intro i; simp))
    · exact tame_crash

theorem tame_setAttribute {s : DState} {el : Option Nat} {n v : String} :
    Tame s (setAttribute s el n v) := by
  unfold setAttribute
  split
  · exact tame_refl s
  · split
    · exact tame_crash
    · exact tame_trans tame_setNode (tame_emit_other (by intro i; simp))

theorem tame_removeAttribute {s : DState} {el : Option Nat} {n : String} :
    Tame s (removeAttribute s el n) := by
  unfold removeAttribute
  split
  · exact tame_refl s
  · split
    · exact tame_crash
    · exact tame_trans tame_setNode (tame_emit_other (by intro i; simp))

theorem tame_setClassName {s : DState} {el : Option Nat} {v : String} :
    Tame s (setClassName s el v) := by
  unfold setClassName
  split
  · exact tame_refl s
  · split
    · exact tame_crash
    · exact tame_trans tame_setNode (tame_emit_other (by intro i; simp))

theorem tame_setTextContent {s : DState} {el : Option Nat} {v : String} :
    Tame s (setTextContent s el v) := by
  unfold setTextContent
  split
  · exact tame_refl s
  · split
    · exact tame_crash
    · exact tame_trans tame_setNode (tame_emit_other (by intro i; simp))

theorem tame_refApply {s : DState} {v : JVal} {arg : Option Nat} :
    Tame s (refApply s v arg) := by
  unfold refApply
  split
  · exact tame_refl s
  · split
    · exact tame_emit_other (by intro i; simp)
    · exact tame_emit_other (by intro i; simp)
    · exact tame_emit_other (by intro i; simp)
    · exact tame_refl s

theorem tame_removeListenerOp {s : DState} {el : Option Nat} {name : String} {v : JVal} :
    Tame s (removeListenerOp s el name v) := by
  unfold removeListenerOp
  split
  · split
    · exact tame_emit_other (by intro i; simp)
    · exact tame_crash
  · exact tame_refl s

theorem tame_addListenerOp {s : DState} {el : Option Nat} {name : String} {v : JVal} :
    Tame s (addListenerOp s el name v) := by
  unfold addListenerOp
  split
  · split
    · exact tame_emit_other (by intro i; simp)
    · exact tame_crash
  · exact tame_refl s

theorem tame_applyProp {s : DState} {el : Option Nat} {name : String} {v : JVal} :
    Tame s (applyProp s el name v) := by
  unfold applyProp
  split_ifs <;>
    first
      | exact tame_refl s
      | exact tame_setClassName
      | exact tame_refApply
      | exact tame_addListenerOp
      | (split <;>
          first
            | exact tame_emit_other (by intro i; simp)
            | exact tame_crash
            | exact tame_refl s)
      | exact tame_removeAttribute
      | exact tame_setAttribute

theorem tame_applyProps {s : DState} {el : Option Nat} {props : Obj} :
    Tame s (applyProps s el props) :=
  tame_foldl (fun s a => tame_applyProp) props s

theorem tame_removeOldProp {s : DState} {el : Option Nat} {newP : Obj}
    {name : String} {v : JVal} : Tame s (removeOldProp s el newP name v) := by
  unfold removeOldProp
  split_ifs <;>
    first
      | exact tame_refl s
      | exact tame_setClassName
      | exact tame_refApply
      | exact tame_removeListenerOp
      | exact tame_removeAttribute


theorem tame_updateNewProp {s : DState} {el : Option Nat} {oldP newP : Obj}
    {name : String} : Tame s (updateNewProp s el oldP newP name) := by
  unfold updateNewProp
  by_cases h0 : s.crashed = true
  · rw [if_pos h0]; exact tame_refl s
  rw [if_neg h0]
  split
  · exact tame_refl s
  split
  · exact tame_refl s
  split
  · split
    · exact tame_crash
    · split
      · exact tame_refl s
      · exact tame_setClassName
  split
  · exact tame_trans tame_removeListenerOp tame_addListenerOp
  split
  · split
    · split
      · exact tame_emit_other (by intro i; simp)
      · exact tame_crash
    · exact tame_refl s
  split
  · split
    · exact tame_emit_other (by intro i; simp)
    · exact tame_crash
  split
  · exact tame_trans
      (by split
          · exact tame_refApply
          · exact tame_refl s)
      tame_refApply
  split
  · exact tame_removeAttribute
  split
  · exact tame_setAttribute
  split
  · exact tame_crash
  split
  · exact tame_refl s
  · exact tame_setAttribute

theorem tame_updateProps {s : DState} {el : Option Nat} {oldP newP : Obj} :
    Tame s (updateProps s el oldP newP) := by
  unfold updateProps
  exact tame_trans (tame_foldl (fun s a => tame_removeOldProp) oldP s)
    (tame_foldl (fun s a => tame_updateNewProp) newP _)

theorem tame_refCleanup {s : DState} {d : Nat} : Tame s (refCleanup s d) := by
  unfold refCleanup
  split
  · exact tame_refl s
  · split
    · exact tame_refl s
    · split
      · exact tame_refApply
      · exact tame_refl s


theorem cwuCount_snoc_self (tr : List Ev) (j : Nat) :
    cwuCount (tr ++ [Ev.willUnmount j]) j = cwuCount tr j + 1 := by
  simp [cwuCount, List.count_append]

theorem cwuCount_snoc_other (tr : List Ev) {i j : Nat} (hij : i ≠ j) :
    cwuCount (tr ++ [Ev.willUnmount j]) i = cwuCount tr i := by
  simp [cwuCount, List.count_append, List.count_singleton]
  omega

theorem Inv_unmountInstanceOn {s : DState} {d : Nat} (hi : Inv s) :
    Inv (unmountInstanceOn s d) := by
  unfold unmountInstanceOn
  by_cases hcr : s.crashed = true
  · rw [if_pos hcr]; exact hi
  rw [if_neg hcr]
  cases hinst : (s.nodes d).inst with
  | none => exact hi
  | some j =>
      dsimp only
      by_cases hu : (s.insts j).isUnmounted = true
      · rw [if_neg (by simp [hu])]
        intro i
        constructor
        · simp only [DState.setInst, if_neg hcr]
          exact (hi i).1
        · intro hflag
          simp only [DState.setInst, if_neg hcr] at hflag ⊢
          by_cases hij : i = j
          · subst hij; simp at hflag
          · simp only [if_neg hij] at hflag
            exact (hi i).2 hflag
      · have hu' : (s.insts j).isUnmounted = false := by
          cases hx : (s.insts j).isUnmounted
          · rfl
          · exact absurd hx hu
        rw [if_pos hu]
        have hcount0 : cwuCount s.trace j = 0 := by
          rcases (hi j).2 hu' with h | h
          · exact absurd h hcr
          · exact h
        have hemit : s.emit (Ev.willUnmount j) =
            { s with trace := s.trace ++ [Ev.willUnmount j] } := by
          simp [DState.emit, hcr]
        by_cases hth : ((s.emit (Ev.willUnmount j)).insts j).cwuThrows = true
        · rw [if_pos hth]
          have hcrash2 : ((s.emit (Ev.willUnmount j)).crash).crashed = true := by
            simp [DState.crash]
          rw [setInst_crashed hcrash2]
          intro i
          rw [hemit]
          constructor
          · show cwuCount (s.trace ++ [Ev.willUnmount j]) i ≤ 1
            by_cases hij : i = j
            · subst hij
              rw [cwuCount_snoc_self]
              omega
            · rw [cwuCount_snoc_other _ hij]
              exact (hi i).1
          · intro _
            left
            rfl
        · rw [if_neg hth]
          intro i
          constructor
          · show cwuCount ((((s.emit (Ev.willUnmount j))).setInst j _).trace) i ≤ 1
            rw [hemit]
            simp only [DState.setInst, if_neg hcr]
            show cwuCount (s.trace ++ [Ev.willUnmount j]) i ≤ 1
            by_cases hij : i = j
            · subst hij
              rw [cwuCount_snoc_self]
              omega
            · rw [cwuCount_snoc_other _ hij]
              exact (hi i).1
          · intro hflag
            rw [hemit] at hflag ⊢
            simp only [DState.setInst, if_neg hcr] at hflag ⊢
            by_cases hij : i = j
            · subst hij
              simp at hflag
            · simp only [if_neg hij] at hflag
              right
              show cwuCount (s.trace ++ [Ev.willUnmount j]) i = 0
              rw [cwuCount_snoc_other _ hij]
              rcases (hi i).2 hflag with h | h
              · exact absurd h hcr
              · exact h


theorem Inv_run : ∀ (fuel : Nat) (c : Call) (s : DState), Inv s → Inv (run fuel c s).2 := by
  intro fuel
  induction fuel with
  | zero => intro c s hi; exact Inv_of_tame tame_crash hi
  | succ fuel ih =>
      intro c s hi
      cases c with
      | cde v =>
          cases v with
          | text str =>
              dsimp only [run]
              exact Inv_of_tame tame_createNode hi
          | frag p k children =>
              dsimp only [run]
              exact Inv_of_tame tame_appendChild (Inv_of_tame tame_createNode
                (ih _ _ (Inv_of_tame tame_appendChild (Inv_of_tame tame_createNode
                  (Inv_of_tame tame_createNode hi)))))
          | elem tag props k children =>
              dsimp only [run]
              exact Inv_of_tame tame_setNode
                (ih _ _ (Inv_of_tame tame_applyProps (Inv_of_tame tame_createNode hi)))
      | cdeList parent vs =>
          cases vs with
          | nil => exact hi
          | cons v rest =>
              simp only [run]
              cases hn : (run fuel (.cde v) s).1.node with
              | none => simp only [hn]; exact ih _ _ (ih _ _ hi)
              | some n => simp only [hn]; exact ih _ _ (Inv_of_tame tame_appendChild (ih _ _ hi))
      | dif parentDOM dom oldV newV index =>
          cases oldV with
          | none =>
              cases newV with
              | none => exact hi
              | some nv =>
                  simp only [run]
                  split
                  · exact Inv_of_tame tame_insertBefore (ih _ _ hi)
                  · exact Inv_of_tame tame_appendChild (ih _ _ hi)
          | some ov =>
              cases newV with
              | none =>
                  cases dom with
                  | none => exact hi
                  | some d => exact Inv_of_tame tame_removeChild (ih _ _ hi)
              | some nv =>
                  simp only [run]
                  split
                  · -- type change
                    split
                    · exact Inv_of_tame tame_replaceChild (ih _ _ (ih _ _ hi))
                    · exact Inv_of_tame tame_crash (ih _ _ (ih _ _ hi))
                  · -- same type
                    split
                    · -- text/text
                      split
                      · exact Inv_of_tame tame_setTextContent hi
                      · exact hi
                    · -- frag/frag
                      split
                      · exact ih _ _ hi
                      · split
                        · exact Inv_of_tame tame_replaceChild (ih _ _ (ih _ _ hi))
                        · exact Inv_of_tame tame_appendChild (ih _ _ hi)
                    · -- elem/elem
                      split
                      · dsimp only
                        exact Inv_of_tame tame_setNode (ih _ _ (Inv_of_tame tame_updateProps hi))
                      · dsimp only
                        exact Inv_of_tame tame_crash (ih _ _ (Inv_of_tame tame_updateProps hi))
                    · exact hi
      | fragStep parentDOM endM oldCh newCh cur =>
          cases oldCh with
          | nil =>
              cases newCh with
              | nil => exact hi
              | cons nc nrest =>
                  exact ih _ _ (Inv_of_tame tame_insertBefore (ih _ _ hi))
          | cons oc orest =>
              cases newCh with
              | nil =>
                  cases cur with
                  | none => exact ih _ _ hi
                  | some cnode =>
                      simp only [run]
                      split
                      · exact ih _ _ (Inv_of_tame tame_removeChild (ih _ _ hi))
                      · exact ih _ _ hi
              | cons nc nrest =>
                  cases cur with
                  | none => exact ih _ _ hi
                  | some cnode =>
                      simp only [run]
                      split
                      · exact ih _ _ (ih _ _ hi)
                      · exact ih _ _ hi
      | dch parentO oldCh newCh =>
          cases parentO with
          | none => exact Inv_of_tame tame_crash hi
          | some p => exact ih _ _ (ih _ _ hi)
      | dchLoop p oldKeyed oldCh oldEls newCh newIndex matched =>
          cases newCh with
          | nil => exact hi
          | cons nc rest =>
              simp only [run]
              cases hn : (run fuel (.dif p (childMatch oldKeyed oldCh oldEls matched nc newIndex).2.1
                  (childMatch oldKeyed oldCh oldEls matched nc newIndex).1 (some nc) newIndex) s).1.node with
              | none => simp only [hn]; exact ih _ _ (ih _ _ hi)
              | some res =>
                  simp only [hn]
                  split
                  · split
                    · exact ih _ _ (Inv_of_tame tame_insertBefore (ih _ _ hi))
                    · exact ih _ _ (Inv_of_tame tame_appendChild (ih _ _ hi))
                  · exact ih _ _ (ih _ _ hi)
      | dchRemove p oldEls matched i len =>
          simp only [run]
          split
          · split
            · split
              · split
                · exact ih _ _ (Inv_of_tame tame_removeChild (ih _ _ hi))
                · exact ih _ _ (ih _ _ hi)
              · exact ih _ _ hi
            · exact ih _ _ hi
          · exact hi
      | ucomp d =>
          simp only [run]
          split
          · exact ih _ _ hi
          · exact Inv_of_tame tame_refCleanup (ih _ _ (Inv_unmountInstanceOn hi))
      | ucompKids d i =>
          simp only [run]
          split
          · exact ih _ _ (ih _ _ hi)
          · exact hi
      | urmAll ds =>
          cases ds with
          | nil => exact hi
          | cons n rest =>
              simp only [run]
              split
              · split
                · exact ih _ _ (Inv_of_tame tame_removeChild
                    (Inv_unmountInstanceOn (ih _ _ hi)))
                · exact ih _ _ (Inv_unmountInstanceOn (ih _ _ hi))
              · exact ih _ _ hi
      | uch dom =>
          cases dom with
          | none => exact hi
          | some d => exact ih _ _ hi
      | uchKids d i =>
          simp only [run]
          split
          · exact ih _ _ (Inv_unmountInstanceOn (ih _ _ hi))
          · exact hi


theorem tame_setInstKeep {s : DState} {j : Nat} {f : Inst → Inst}
    (hf : ∀ ins, (f ins).isUnmounted = ins.isUnmounted) :
    Tame s (s.setInst j f) := tame_setInst hf

theorem Inv_update (fuel i : Nat) {s : DState} (hi : Inv s) :
    Inv (Component.update fuel i s) := by
  unfold Component.update
  split
  · exact hi
  dsimp only
  split
  · exact hi
  split
  · exact hi
  dsimp only [diff]
  split
  · exact Inv_of_tame (tame_setInst (fun ins => rfl))
      (Inv_of_tame (tame_setInst (fun ins => rfl)) hi)
  split
  · exact Inv_of_tame tame_crash
      (Inv_of_tame (tame_emit_other (by intro j; simp))
        (Inv_of_tame (tame_setInst (fun ins => rfl))
          (Inv_run _ _ _ (Inv_of_tame (tame_setInst (fun ins => rfl))
            (Inv_of_tame (tame_setInst (fun ins => rfl)) hi)))))
  · exact Inv_of_tame (tame_emit_other (by intro j; simp))
      (Inv_of_tame (tame_setInst (fun ins => rfl))
        (Inv_run _ _ _ (Inv_of_tame (tame_setInst (fun ins => rfl))
          (Inv_of_tame (tame_setInst (fun ins => rfl)) hi))))

theorem Inv_setState (fuel i : Nat) (u : Updater) {s : DState} (hi : Inv s) :
    Inv (Component.setState fuel i u s) := by
  unfold Component.setState
  split
  · exact hi
  · exact Inv_update fuel i (Inv_of_tame (tame_setInst (fun ins => rfl)) hi)

theorem Inv_runTimeout (i : Nat) {s : DState} (hi : Inv s) :
    Inv (runTimeout i s) := by
  unfold runTimeout
  split
  · exact hi
  split
  · dsimp only
    split
    · exact Inv_of_tame (tame_setInst (fun ins => rfl))
        (Inv_of_tame tame_crash (Inv_of_tame (tame_emit_other (by intro j; simp)) hi))
    · exact Inv_of_tame (tame_setInst (fun ins => rfl))
        (Inv_of_tame (tame_emit_other (by intro j; simp)) hi)
  · exact hi

theorem Inv_applyOp (fuel : Nat) {s : DState} (op : Op) (hi : Inv s) :
    Inv (applyOp fuel s op) := by
  cases op with
  | difOp p d o n i => exact Inv_run _ _ _ hi
  | dchOp p o n => exact Inv_run _ _ _ hi
  | cdeOp v => exact Inv_run _ _ _ hi
  | ucompOp d => exact Inv_run _ _ _ hi
  | setStateOp i u => exact Inv_setState _ _ _ hi
  | updateOp i => exact Inv_update _ _ hi
  | timeoutOp i => exact Inv_runTimeout _ hi

theorem Inv_applyOps (fuel : Nat) (ops : List Op) {s : DState} (hi : Inv s) :
    Inv (applyOps fuel ops s) := by
  unfold applyOps
  induction ops generalizing s with
  | nil => exact hi
  | cons op rest ihops => exact ihops (Inv_applyOp fuel op hi)

/-- A deferred-callback step cannot fire "attached" for an instance that
is already unmounted, and cannot resurrect it. -/
theorem runTimeout_unmounted_noop {i : Nat} {s : DState}
    (h : (s.insts i).isUnmounted = true) : runTimeout i s = s := by
  unfold runTimeout
  split <;> simp [h]

/-- A deferred-callback step for a different instance leaves this
instance alone and can only append that other instance's "attached"
event. -/
theorem runTimeout_other {i j : Nat} {t : DState} (hij : j ≠ i) :
    (runTimeout j t).insts i = t.insts i ∧
    ((runTimeout j t).trace = t.trace ∨
      (runTimeout j t).trace = t.trace ++ [Ev.didMount j]) := by
  have hij' : i ≠ j := fun hx => hij hx.symm
  unfold runTimeout
  split
  · exact ⟨rfl, Or.inl rfl⟩
  split
  · dsimp only
    rename_i hcr _
    by_cases hth : ((t.emit (Ev.didMount j)).insts j).cdmThrows = true
    · rw [if_pos hth]
      constructor
      · simp [DState.setInst, DState.crash, DState.emit, hcr, hij']
      · right
        simp [DState.setInst, DState.crash, DState.emit, hcr]
    · rw [if_neg hth]
      constructor
      · simp [DState.setInst, DState.emit, hcr, hij']
      · right
        simp [DState.setInst, DState.emit, hcr]
  · exact ⟨rfl, Or.inl rfl⟩

/-- Draining the deferred queue never fires "attached" for an instance
that was unmounted beforehand. -/
theorem runAllPending_no_attached {i : Nat} {s : DState}
    (hu : (s.insts i).isUnmounted = true) (ht : Ev.didMount i ∉ s.trace) :
    Ev.didMount i ∉ (runAllPending s).trace := by
  unfold runAllPending
  have main : ∀ (l : List Nat) (t : DState),
      (t.insts i).isUnmounted = true → Ev.didMount i ∉ t.trace →
      Ev.didMount i ∉ (l.foldl (fun t j => runTimeout j t) t).trace := by
    intro l
    induction l with
    | nil => intro t h1 h2; exact h2
    | cons j rest ihl =>
        intro t h1 h2
        simp only [List.foldl_cons]
        by_cases hij : j = i
        · subst hij
          rw [runTimeout_unmounted_noop h1]
          exact ihl t h1 h2
        · obtain ⟨hinsts, htr⟩ := runTimeout_other (t := t) hij
          refine ihl _ (by rw [hinsts]; exact h1) ?_
          rcases htr with h | h
          · rw [h]; exact h2
          · rw [h]
            simp only [List.mem_append, List.mem_singleton]
            rintro (hc | hc)
            · exact h2 hc
            · exact hij (by injection hc with hji; exact hji.symm)
  exact main s.pending { s with pending := [] } hu ht

/-! ## Claim developments -/

/-! C10 -/

/-- C10: a falsy `key` passed to `h` (`0`, `''`, `false`, `null`, ...)
is normalized to `null`, so the resulting child is unkeyed: it never
takes `diffChildren`'s keyed-lookup path, and its pairing is exactly
the positional rule for unkeyed children. -/
theorem C10_falsy_key_unkeyed (ty : HType) (p : Obj) (ch : List HArg)
    (hk : (objGet p "key").truthy = false) :
    (h ty (some p) ch).keyOf = JVal.nullv ∧
    isKeyed (h ty (some p) ch) = false ∧
    (∀ oldKeyed oldCh oldEls matched idx,
      childMatch oldKeyed oldCh oldEls matched (h ty (some p) ch) idx =
        if idx < oldCh.length ∧ idx ∉ matched then
          match oldCh[idx]? with
          | some cand =>
              if ¬cand.keyOf.truthy ∧ cand.typeOf = (h ty (some p) ch).typeOf then
                (some cand, oldEls[idx]?, idx :: matched)
              else (none, none, matched)
          | none => (none, none, matched)
        else (none, none, matched)) := by
  have hkey : (h ty (some p) ch).keyOf = JVal.nullv := by
    unfold h
    cases ty <;> simp [VNode.keyOf, hk]
  refine ⟨hkey, ?_, ?_⟩
  · simp [isKeyed, hkey]
  · intro oldKeyed oldCh oldEls matched idx
    unfold childMatch
    rw [if_neg (by simp [isKeyed, hkey])]

/-- C10 witness: `key = 0` on an `li` yields a `null` key, an unkeyed
child, and no pairing against empty old children. -/
theorem C10_witness :
    (h (.tag "li") (some [("key", JVal.num 0)]) []).keyOf = JVal.nullv ∧
    isKeyed (h (.tag "li") (some [("key", JVal.num 0)]) []) = false ∧
    childMatch [] [] [] [] (h (.tag "li") (some [("key", JVal.num 0)]) []) 0 =
      (none, none, []) := by
  obtain ⟨h1, h2, h3⟩ := C10_falsy_key_unkeyed (.tag "li") [("key", JVal.num 0)] []
    (by decide)
  exact ⟨h1, h2, by rw [h3]; simp⟩

/-! C8 (and a helper shared with the C3 development) -/

/-- `update()` returns untouched when the instance has no live root or
is already unmounted. -/
theorem update_inert (fuel i : Nat) (t : DState) (ht : t.crashed = false)
    (hcond : (t.insts i).dom = none ∨ (t.insts i).isUnmounted = true) :
    Component.update fuel i t = t := by
  unfold Component.update
  rw [if_neg (by simp [ht])]
  dsimp only
  rcases hcond with hc | hc
  · rw [hc]
  · cases hx : (t.insts i).dom with
    | none => rfl
    | some d => dsimp only; rw [if_pos hc]

/-- `update()` on an instance whose live root node has no parent
(detached, e.g. replaced during its own update): the source re-renders
and clears the saved previous state, then returns at the
`parentDOM` guard — nothing is diffed, patched, notified or thrown. -/
theorem update_no_parent (fuel i d : Nat) (s : DState)
    (hcr : s.crashed = false) (hdom : (s.insts i).dom = some d)
    (hu : (s.insts i).isUnmounted = false) (hp : s.parentOf d = none) :
    Component.update fuel i s =
      (s.setInst i (fun ins => { ins with prevState := none })).setInst i
        (fun ins =>
          { ins with
             childVNode :=
               some ((s.insts i).renderF (s.insts i).state (s.insts i).props) }) := by
  unfold Component.update
  rw [if_neg (by simp [hcr])]
  dsimp only
  rw [hdom]
  dsimp only
  rw [if_neg (by simp [hu])]
  rw [show ((s.setInst i fun ins => { ins with prevState := none }).setInst i
      (fun ins =>
        { ins with
           childVNode :=
             some ((s.insts i).renderF (s.insts i).state (s.insts i).props) })).parentOf d
      = none from by simp [DState.setInst, hcr, hp]]

/-- C8: an inert instance is inert in every sense the source guards.
With no live root node or after unmount, `update()` returns the state
untouched and `setState` only rewrites the instance's own fields; and
when the root node exists but has no live parent (the detached case,
guarded separately by `if (!parentDOM) return`), both calls leave the
presentation tree alone — no DOM-heap change, no parent change, no
event, no pending work, no crash — and touch only the instance's own
bookkeeping (`_prevState`, `_childVNode`, state merge), its visible
state, root reference and flags surviving unchanged through
`update()`. -/
theorem C8_inert_after_unmount :
    (∀ (fuel i : Nat) (s : DState) (u : Updater),
       s.crashed = false →
       ((s.insts i).dom = none ∨ (s.insts i).isUnmounted = true) →
       Component.update fuel i s = s ∧
       (Component.setState fuel i u s).nodes = s.nodes ∧
       (Component.setState fuel i u s).parentOf = s.parentOf ∧
       (Component.setState fuel i u s).trace = s.trace ∧
       (Component.setState fuel i u s).pending = s.pending ∧
       (Component.setState fuel i u s).crashed = false) ∧
    (∀ (fuel i d : Nat) (u : Updater) (s : DState),
       s.crashed = false →
       (s.insts i).dom = some d →
       (s.insts i).isUnmounted = false →
       s.parentOf d = none →
       (Component.update fuel i s).nodes = s.nodes ∧
       (Component.update fuel i s).parentOf = s.parentOf ∧
       (Component.update fuel i s).trace = s.trace ∧
       (Component.update fuel i s).pending = s.pending ∧
       (Component.update fuel i s).crashed = false ∧
       (∀ j, j ≠ i → (Component.update fuel i s).insts j = s.insts j) ∧
       ((Component.update fuel i s).insts i).state = (s.insts i).state ∧
       ((Component.update fuel i s).insts i).dom = some d ∧
       ((Component.update fuel i s).insts i).isUnmounted = false ∧
       ((Component.update fuel i s).insts i).isMounted = (s.insts i).isMounted ∧
       (Component.setState fuel i u s).nodes = s.nodes ∧
       (Component.setState fuel i u s).parentOf = s.parentOf ∧
       (Component.setState fuel i u s).trace = s.trace ∧
       (Component.setState fuel i u s).pending = s.pending ∧
       (Component.setState fuel i u s).crashed = false) := by
  constructor
  · intro fuel i s u hcr hcond
    constructor
    · exact update_inert fuel i s hcr hcond
    · unfold Component.setState
      rw [if_neg (by simp [hcr])]
      dsimp only
      rw [update_inert fuel i _ (by simp [DState.setInst, hcr])
        (by rcases hcond with hc | hc
            · exact Or.inl (by simp [DState.setInst, hcr, hc])
            · exact Or.inr (by simp [DState.setInst, hcr, hc]))]
      simp [DState.setInst, hcr]
  · intro fuel i d u s hcr hdom hu hp
    have hupd := update_no_parent fuel i d s hcr hdom hu hp
    refine ⟨?_, ?_, ?_, ?_, ?_, ?_, ?_, ?_, ?_, ?_, ?_, ?_, ?_, ?_, ?_⟩
    · rw [hupd]; simp [DState.setInst, hcr]
    · rw [hupd]; simp [DState.setInst, hcr]
    · rw [hupd]; simp [DState.setInst, hcr]
    · rw [hupd]; simp [DState.setInst, hcr]
    · rw [hupd]; simp [DState.setInst, hcr]
    · intro j hj
      rw [hupd]; simp [DState.setInst, hcr, hj]
    · rw [hupd]; simp [DState.setInst, hcr]
    · rw [hupd]; simp [DState.setInst, hcr, hdom]
    · rw [hupd]; simp [DState.setInst, hcr, hu]
    · rw [hupd]; simp [DState.setInst, hcr]
    all_goals {
      unfold Component.setState
      rw [if_neg (by simp [hcr])]
      dsimp only
      rw [update_no_parent fuel i d _ (by simp [DState.setInst, hcr])
        (by simp [DState.setInst, hcr, hdom]) (by simp [DState.setInst, hcr, hu])
        (by simp [DState.setInst, hcr, hp])]
      simp [DState.setInst, hcr]
    }

/-- C8 witness: `update` is a no-op on an instance with no live root,
and on an instance whose live root node 1 has no parent it leaves the
trace empty and does not crash. -/
theorem C8_witness :
    Component.update 5 0 { insts := fun _ => { dom := none } } =
      { insts := fun _ => { dom := none } } ∧
    (Component.update 5 0 { insts := fun _ => { dom := some 1 } }).trace =
      ([] : List Ev) ∧
    (Component.update 5 0 { insts := fun _ => { dom := some 1 } }).crashed = false := by
  refine ⟨(C8_inert_after_unmount.1 5 0 _ (.obj []) rfl (Or.inl rfl)).1, ?_, ?_⟩
  · exact (C8_inert_after_unmount.2 5 0 1 (.obj []) _ rfl rfl rfl rfl).2.2.1
  · exact (C8_inert_after_unmount.2 5 0 1 (.obj []) _ rfl rfl rfl rfl).2.2.2.2.1

/-! C3 scenario: two consecutive setState calls on a mounted instance -/

/-- A mounted component whose render returns a constant text node,
with state `{count: 0}`. -/
def c3inst : Inst :=
  { state := [("count", .num 0)], dom := some 1, childVNode := some (.text "t"),
    renderF := fun _ _ => .text "t", isMounted := true }

/-- Root element (node 0) containing the instance's live text node
(node 1). -/
def c3base : DState :=
  let s := (createNode {} (.delem "root") "").2
  let s := (createNode s .dtext "t").2
  let s := appendChild s 0 1
  { s with insts := fun j => if j = 0 then c3inst else {}, trace := [] }

/-- `setState({count:1})` followed immediately by
`setState({count:2})`. -/
def c3run : DState :=
  Component.setState 50 0 (.obj [("count", .num 2)])
    (Component.setState 50 0 (.obj [("count", .num 1)]) c3base)

/-- C3 counterexample: `setState({count:1})` then `setState({count:2})`
on a mounted instance with state `{count:0}` produces two synchronous
"updated" notifications — there is no batching — and the second one
reports previous state `{count:1}`; no notification pairs previous
`{count:0}` with current `{count:2}`. -/
theorem C3_counterexample :
    c3run.trace =
      [Ev.didUpdate 0 [] [("count", JVal.num 0)] [("count", JVal.num 1)],
       Ev.didUpdate 0 [] [("count", JVal.num 1)] [("count", JVal.num 2)]] ∧
    (∀ pp ps cs, Ev.didUpdate 0 pp ps cs ∈ c3run.trace →
      ¬(ps = [("count", JVal.num 0)] ∧ cs = [("count", JVal.num 2)])) := by
  constructor
  · rfl
  · intro pp ps cs hmem
    rw [show c3run.trace = [Ev.didUpdate 0 [] [("count", JVal.num 0)] [("count", JVal.num 1)],
       Ev.didUpdate 0 [] [("count", JVal.num 1)] [("count", JVal.num 2)]] from rfl] at hmem
    simp only [List.mem_cons, List.mem_singleton] at hmem
    rcases hmem with hc | hc | hc
    · injection hc with _ _ h3 h4
      intro ⟨hl, hr⟩
      rw [h4] at hr
      exact absurd hr.symm (by decide)
    · injection hc with _ _ h3 h4
      intro ⟨hl, hr⟩
      rw [h3] at hl
      exact absurd hl.symm (by decide)
    · cases hc

/-- C3: each `setState` captures the state immediately before its own
merge as `_prevState`, unconditionally overwriting any earlier capture,
and updates synchronously; the two-call scenario therefore notifies
`{count:0}→{count:1}` then `{count:1}→{count:2}`. -/
theorem C3_amended (fuel i : Nat) (u : Updater) (s : DState)
    (hcr : s.crashed = false)
    (hinert : (s.insts i).dom = none ∨ (s.insts i).isUnmounted = true) :
    c3run.trace =
      [Ev.didUpdate 0 [] [("count", JVal.num 0)] [("count", JVal.num 1)],
       Ev.didUpdate 0 [] [("count", JVal.num 1)] [("count", JVal.num 2)]] ∧
    ((Component.setState fuel i u s).insts i).prevState = some (s.insts i).state := by
  refine ⟨rfl, ?_⟩
  unfold Component.setState
  rw [if_neg (by simp [hcr])]
  dsimp only
  rw [update_inert fuel i _ (by simp [DState.setInst, hcr])
    (by rcases hinert with hc | hc
        · exact Or.inl (by simp [DState.setInst, hcr, hc])
        · exact Or.inr (by simp [DState.setInst, hcr, hc]))]
  simp [DState.setInst, hcr]

/-- C3 witness: the scenario trace, and a concrete `_prevState`
overwrite on an inert instance. -/
theorem C3_amended_witness :
    c3run.trace =
      [Ev.didUpdate 0 [] [("count", JVal.num 0)] [("count", JVal.num 1)],
       Ev.didUpdate 0 [] [("count", JVal.num 1)] [("count", JVal.num 2)]] ∧
    ((Component.setState 5 0 (.obj [("x", JVal.num 1)])
        { insts := fun _ => { dom := none, state := [("y", JVal.num 7)] } }).insts 0).prevState =
      some [("y", JVal.num 7)] :=
  C3_amended 5 0 (.obj [("x", JVal.num 1)])
    { insts := fun _ => { dom := none, state := [("y", JVal.num 7)] } } rfl (Or.inl rfl)

/-! C9 scenario: a throwing `componentWillUnmount` on the first of two
sibling component nodes -/

def c9base : DState :=
  let s := (createNode {} (.delem "root") "").2
  let s := (createNode s (.delem "div") "").2
  let s := (createNode s (.delem "div") "").2
  let s := appendChild s 0 1
  let s := appendChild s 0 2
  let s := s.setNode 1 (fun nd => { nd with inst := some 0 })
  let s := s.setNode 2 (fun nd => { nd with inst := some 1 })
  { s with insts := fun j => if j = 0 then { cwuThrows := true } else {}, trace := [] }

def c9run : DState := unmountComponent 50 0 c9base

/-- C9 counterexample: a throwing `componentWillUnmount` on the first
of two sibling component nodes aborts `unmountComponent`: the pass
crashes, nothing is logged, and the second sibling's hook never runs. -/
theorem C9_counterexample :
    c9run.crashed = true ∧
    c9run.trace = [Ev.willUnmount 0] ∧
    Ev.errorLogged ∉ c9run.trace ∧
    Ev.willUnmount 1 ∉ c9run.trace ∧
    (c9base.nodes 2).inst = some 1 ∧
    (c9base.insts 1).isUnmounted = false := by
  refine ⟨rfl, rfl, ?_, ?_, rfl, rfl⟩
  · rw [show c9run.trace = [Ev.willUnmount 0] from rfl]
    decide
  · rw [show c9run.trace = [Ev.willUnmount 0] from rfl]
    decide

/-- The notification list of the store's `setState` as a function of
the listener list: every listener is called in order, a throwing
listener is followed by an error log, and the loop continues. -/
theorem storeSetState_trace (st : Store) (u : StoreUpdater) (tr : List Ev) :
    (storeSetState st u tr).2 = tr ++ st.listeners.foldr
      (fun l acc => Ev.listenerCall l.id :: (if l.throws then [Ev.errorLogged] else []) ++ acc)
      [] := by
  unfold storeSetState
  dsimp only
  suffices haux : ∀ (ls : List StoreListener) (tr : List Ev),
      ls.foldl (fun tr l =>
        let tr := tr ++ [Ev.listenerCall l.id]
        if l.throws then tr ++ [Ev.errorLogged] else tr) tr =
      tr ++ ls.foldr (fun l acc =>
        Ev.listenerCall l.id :: (if l.throws then [Ev.errorLogged] else []) ++ acc) [] by
    exact haux st.listeners tr
  intro ls
  induction ls with
  | nil => intro tr; simp
  | cons l rest ihl =>
      intro tr
      simp only [List.foldl_cons, List.foldr_cons]
      rw [ihl]
      by_cases hth : l.throws <;> simp [hth]

/-- A `componentWillUnmount` that throws leaves the crash propagating:
the pass is marked dead, no error is logged, and the instance flags are
not even updated (the statements after the call never ran). -/
theorem unmountInstanceOn_throw (s : DState) (d i : Nat)
    (hcr : s.crashed = false) (hinst : (s.nodes d).inst = some i)
    (hu : (s.insts i).isUnmounted = false) (hth : (s.insts i).cwuThrows = true) :
    (unmountInstanceOn s d).crashed = true ∧
    (unmountInstanceOn s d).insts i = s.insts i ∧
    (unmountInstanceOn s d).trace = s.trace ++ [Ev.willUnmount i] := by
  unfold unmountInstanceOn
  rw [if_neg (by simp [hcr]), hinst]
  dsimp only
  rw [if_pos (by simp [hu])]
  have hemit : s.emit (Ev.willUnmount i) = { s with trace := s.trace ++ [Ev.willUnmount i] } := by
    simp [DState.emit, hcr]
  rw [hemit]
  rw [if_pos (show (({ s with trace := s.trace ++ [Ev.willUnmount i] } : DState).insts i).cwuThrows = true from hth)]
  refine ⟨?_, ?_, ?_⟩ <;> simp [DState.setInst, DState.crash]

/-- A mounted component instance whose `componentDidUpdate` throws:
state `\x7b\x7d`, live text node 1 inside root node 0. -/
def c9cduInst : Inst :=
  { state := [], dom := some 1, childVNode := some (.text "t"),
    renderF := fun _ _ => .text "t", isMounted := true, cduThrows := true }

def c9cduBase : DState :=
  let s := (createNode {} (.delem "root") "").2
  let s := (createNode s .dtext "t").2
  let s := appendChild s 0 1
  { s with insts := fun j => if j = 0 then c9cduInst else {}, trace := [] }

/-- `setState(\x7bx: 1\x7d)` on that instance: the update completes, the
"updated" notification fires, the hook throws, nothing catches it. -/
def c9cduRun : DState := Component.setState 50 0 (.obj [("x", .num 1)]) c9cduBase

/-- C9: only store-listener exceptions are caught and logged — the
dispatch loop calls every listener, logging after a throwing one and
continuing.  Lifecycle hooks invoked synchronously by the core are
bare: a throwing `componentWillUnmount` escapes with the instance
flags untouched, a throwing `componentDidUpdate` escapes right after
the notification (concretely: the setState pass ends crashed, with no
error logged), and once the pass has crashed every further
component-level call (`update`, `setState`) and every interpreter step
is dead — the remaining siblings of that pass are not processed. -/
theorem C9_amended :
    (∀ (st : Store) (u : StoreUpdater) (tr : List Ev),
      (storeSetState st u tr).2 = tr ++ st.listeners.foldr
        (fun l acc => Ev.listenerCall l.id ::
          (if l.throws then [Ev.errorLogged] else []) ++ acc) []) ∧
    (∀ (s : DState) (d i : Nat), s.crashed = false → (s.nodes d).inst = some i →
      (s.insts i).isUnmounted = false → (s.insts i).cwuThrows = true →
      (unmountInstanceOn s d).crashed = true ∧
      (unmountInstanceOn s d).insts i = s.insts i ∧
      (unmountInstanceOn s d).trace = s.trace ++ [Ev.willUnmount i]) ∧
    (∀ (fuel i : Nat) (u : Updater) (s : DState), s.crashed = true →
      Component.update fuel i s = s ∧ Component.setState fuel i u s = s) ∧
    (∀ (fuel : Nat) (c : Call) (s : DState), s.crashed = true → (run fuel c s).2 = s) ∧
    (c9cduRun.crashed = true ∧
     c9cduRun.trace = [Ev.didUpdate 0 [] [] [("x", JVal.num 1)]] ∧
     Ev.errorLogged ∉ c9cduRun.trace) := by
  refine ⟨storeSetState_trace, unmountInstanceOn_throw, ?_, run_crashed,
    by decide, by decide, ?_⟩
  · intro fuel i u s hcr
    constructor
    · unfold Component.update
      rw [if_pos hcr]
    · unfold Component.setState
      rw [if_pos hcr]
  · rw [show c9cduRun.trace = [Ev.didUpdate 0 [] [] [("x", JVal.num 1)]] from by decide]
    decide

/-- C9 witness: a throwing store listener is logged and the next
listener still runs; a throwing `componentWillUnmount` crashes the
pass; a crashed state absorbs any further component call or
interpreter step. -/
theorem C9_amended_witness :
    (storeSetState { listeners := [⟨0, true⟩, ⟨1, false⟩] } (.obj []) []).2 =
      [Ev.listenerCall 0, Ev.errorLogged, Ev.listenerCall 1] ∧
    (unmountInstanceOn c9base 1).crashed = true ∧
    Component.update 3 0 { crashed := true } = { crashed := true } ∧
    (run 5 (.ucomp 2) { crashed := true }).2 = { crashed := true } := by
  refine ⟨?_, ?_, ?_, ?_⟩
  · rw [C9_amended.1 { listeners := [⟨0, true⟩, ⟨1, false⟩] } (.obj []) []]
    decide
  · exact (C9_amended.2.1 c9base 1 0 rfl rfl rfl rfl).1
  · exact (C9_amended.2.2.1 3 0 (.obj []) { crashed := true } rfl).1
  · exact C9_amended.2.2.2.1 5 (.ucomp 2) { crashed := true } rfl

/-! C7 -/

/-- C7: the deferred `componentDidMount` callback is cancelled by
unmounting (it checks `_isUnmounted` and does nothing), so an instance
unmounted before the timer fires never receives "attached"; and across
any op sequence from an invariant state, `componentWillUnmount` fires
at most once per instance. -/
theorem C7_attached_cancelled_cwu_once :
    (∀ (i : Nat) (s : DState), (s.insts i).isUnmounted = true → runTimeout i s = s) ∧
    (∀ (i : Nat) (s : DState), (s.insts i).isUnmounted = true →
      Ev.didMount i ∉ s.trace → Ev.didMount i ∉ (runAllPending s).trace) ∧
    (∀ (fuel : Nat) (ops : List Op) (s : DState) (i : Nat), Inv s →
      cwuCount (applyOps fuel ops s).trace i ≤ 1) :=
  ⟨fun _ _ hh => runTimeout_unmounted_noop hh,
   fun _ _ hu ht => runAllPending_no_attached hu ht,
   fun fuel ops s i hi => (Inv_applyOps fuel ops hi i).1⟩

def c7w : DState := { insts := fun _ => { isUnmounted := true }, pending := [0] }

/-- C7 witness: a pending mount for an already-unmounted instance
fires nothing, and double unmount emits at most one
`componentWillUnmount`. -/
theorem C7_witness :
    runTimeout 0 c7w = c7w ∧
    Ev.didMount 0 ∉ (runAllPending c7w).trace ∧
    cwuCount (applyOps 5 [Op.ucompOp 0, Op.ucompOp 0] c7w).trace 0 ≤ 1 := by
  refine ⟨C7_attached_cancelled_cwu_once.1 0 c7w rfl,
    C7_attached_cancelled_cwu_once.2.1 0 c7w rfl (by decide),
    C7_attached_cancelled_cwu_once.2.2 5 _ c7w 0 ?_⟩
  intro i
  constructor
  · rw [show c7w.trace = [] from rfl]
    simp [cwuCount]
  · intro hflag
    rw [show (c7w.insts i).isUnmounted = true from rfl] at hflag
    simp at hflag

/-! C2 scenario: a fragment whose keyed children are reordered -/

def c2divOld : VNode := .elem "div" [] (.str "k1") []
def c2spanOld : VNode := .elem "span" [] (.str "k2") []
def c2fragOld : VNode := .frag [] .nullv [c2divOld, c2spanOld]
def c2fragNew : VNode := .frag [] .nullv [c2spanOld, c2divOld]

def c2mat : RV × DState :=
  createDOMElement 50 c2fragOld ((createNode {} (.delem "root") "").2)

/-- Container node 0 holding the materialized fragment: start marker 2,
div 3 (key "k1"), span 4 (key "k2"), end marker 5. -/
def c2base : DState := appendChild c2mat.2 0 (c2mat.1.node.getD 99)

def c2res : Option Nat × DState :=
  diff 50 0 (some 2) (some c2fragOld) (some c2fragNew) 0 c2base

/-- C2 counterexample: reordering a fragment's keyed children `k1,k2`
replaces both live nodes (3 and 4) with fresh ones (6 and 7) instead of
moving them: the diff of a fragment's children is positional, not
keyed. -/
theorem C2_counterexample :
    (c2base.nodes 3).kind = .delem "div" ∧
    (c2base.nodes 4).kind = .delem "span" ∧
    childNodes c2base 0 = [2, 3, 4, 5] ∧
    c2res.1 = some 2 ∧
    childNodes c2res.2 0 = [2, 6, 7, 5] ∧
    Ev.replaced 3 6 0 ∈ c2res.2.trace ∧
    Ev.replaced 4 7 0 ∈ c2res.2.trace ∧
    c2res.2.parentOf 3 = none ∧
    c2res.2.parentOf 4 = none := by
  decide

/-- With intact markers, `diff` hands the children to the positional
`fragStep` loop and returns the start marker. -/
theorem frag_intact_positional (fuel : Nat) (parentDOM idx : Nat) (d em : Nat)
    (s : DState) (p1 p2 : Obj) (k1 k2 : JVal) (oldCh newCh : List VNode)
    (hd : (s.nodes d).kind = .dcomment) (hc : (s.nodes d).content = "fragment-start")
    (hem : findEndMarker fuel s (nextSibling s d) = some em) :
    run (fuel+1) (.dif parentDOM (some d) (some (.frag p1 k1 oldCh))
        (some (.frag p2 k2 newCh)) idx) s =
      ({ node := some d },
       (run fuel (.fragStep parentDOM em oldCh newCh (nextSibling s d)) s).2) := by
  rw [run]
  dsimp only
  rw [if_neg (show ¬((VNode.frag p1 k1 oldCh).typeOf ≠ (VNode.frag p2 k2 newCh).typeOf) from
    by simp [VNode.typeOf])]
  rw [if_pos (show (s.nodes d).kind = DKind.dcomment ∧ (s.nodes d).content = "fragment-start"
    from ⟨hd, hc⟩)]
  dsimp only
  rw [hem]

/-- With a live node that is not a start marker, the fragment is
rebuilt from scratch and substituted for the old node (full
replacement). -/
theorem frag_detached_replaces (fuel : Nat) (parentDOM idx : Nat) (d : Nat)
    (s : DState) (p1 p2 : Obj) (k1 k2 : JVal) (oldCh newCh : List VNode)
    (hd : ¬((s.nodes d).kind = .dcomment ∧ (s.nodes d).content = "fragment-start")) :
    run (fuel+1) (.dif parentDOM (some d) (some (.frag p1 k1 oldCh))
        (some (.frag p2 k2 newCh)) idx) s =
      ({ node := (run fuel (.cde (.frag p2 k2 newCh)) s).1.startM },
       replaceChild (run fuel (.ucomp d) (run fuel (.cde (.frag p2 k2 newCh)) s).2).2
         parentDOM ((run fuel (.cde (.frag p2 k2 newCh)) s).1.node.getD 0) d) := by
  rw [run]
  dsimp only
  rw [if_neg (show ¬((VNode.frag p1 k1 oldCh).typeOf ≠ (VNode.frag p2 k2 newCh).typeOf) from
    by simp [VNode.typeOf])]
  rw [if_neg hd]

/-- C2: with both fragment markers intact, `diff` walks the children
positionally through `fragStep` and returns the start marker as the
group identity; keys are never consulted, so a keyed reorder patches or
replaces in place.  Without an intact marker pair the old fragment node
is torn down and fully replaced by a freshly materialized one. -/
theorem C2_amended :
    (∀ (fuel : Nat) (parentDOM idx : Nat) (d em : Nat) (s : DState) (p1 p2 : Obj)
        (k1 k2 : JVal) (oldCh newCh : List VNode),
      (s.nodes d).kind = .dcomment → (s.nodes d).content = "fragment-start" →
      findEndMarker fuel s (nextSibling s d) = some em →
      run (fuel+1) (.dif parentDOM (some d) (some (.frag p1 k1 oldCh))
          (some (.frag p2 k2 newCh)) idx) s =
        ({ node := some d },
         (run fuel (.fragStep parentDOM em oldCh newCh (nextSibling s d)) s).2)) ∧
    (∀ (fuel : Nat) (parentDOM idx : Nat) (d : Nat) (s : DState) (p1 p2 : Obj)
        (k1 k2 : JVal) (oldCh newCh : List VNode),
      ¬((s.nodes d).kind = .dcomment ∧ (s.nodes d).content = "fragment-start") →
      run (fuel+1) (.dif parentDOM (some d) (some (.frag p1 k1 oldCh))
          (some (.frag p2 k2 newCh)) idx) s =
        ({ node := (run fuel (.cde (.frag p2 k2 newCh)) s).1.startM },
         replaceChild (run fuel (.ucomp d) (run fuel (.cde (.frag p2 k2 newCh)) s).2).2
           parentDOM ((run fuel (.cde (.frag p2 k2 newCh)) s).1.node.getD 0) d)) ∧
    (c2res.1 = some 2 ∧ childNodes c2res.2 0 = [2, 6, 7, 5]) :=
  ⟨fun fuel p idx d em s p1 p2 k1 k2 o n hd hc hem =>
      frag_intact_positional fuel p idx d em s p1 p2 k1 k2 o n hd hc hem,
   fun fuel p idx d s p1 p2 k1 k2 o n hd =>
      frag_detached_replaces fuel p idx d s p1 p2 k1 k2 o n hd,
   by decide⟩

/-- C2 witness: both fragment-branch shapes at the concrete scenario
(intact markers starting at node 2; detached `dom` at node 3). -/
theorem C2_amended_witness :
    run 50 (.dif 0 (some 2) (some c2fragOld) (some c2fragNew) 0) c2base =
      ({ node := some 2 },
       (run 49 (.fragStep 0 5 [c2divOld, c2spanOld] [c2spanOld, c2divOld]
         (nextSibling c2base 2)) c2base).2) ∧
    run 50 (.dif 0 (some 3) (some c2fragOld) (some c2fragNew) 0) c2base =
      ({ node := (run 49 (.cde c2fragNew) c2base).1.startM },
       replaceChild (run 49 (.ucomp 3) (run 49 (.cde c2fragNew) c2base).2).2
         0 ((run 49 (.cde c2fragNew) c2base).1.node.getD 0) 3) := by
  constructor
  · exact C2_amended.1 49 0 0 2 5 c2base [] [] .nullv .nullv _ _ (by decide) (by decide)
      (by decide)
  · exact C2_amended.2.1 49 0 0 3 c2base [] [] .nullv .nullv _ _ (by decide)

/-! C1 and C5 : the pairing step of `diffChildren` -/

theorem entryGet_entrySet_self (m : List (String × OldEntry)) (k : String) (e : OldEntry) :
    entryGet (entrySet m k e) k = some e := by
  induction m with
  | nil => simp [entrySet, entryGet, List.find?]
  | cons p rest ih =>
      by_cases hp : p.1 = k
      · simp [entrySet, hp, entryGet, List.find?]
      · simp only [entrySet, if_neg hp, entryGet, List.find?, decide_eq_false hp]
        exact ih

theorem entryGet_entrySet_other (m : List (String × OldEntry)) (k k' : String)
    (e : OldEntry) (h : k' ≠ k) :
    entryGet (entrySet m k e) k' = entryGet m k' := by
  induction m with
  | nil => simp [entrySet, entryGet, List.find?, Ne.symm h]
  | cons p rest ih =>
      by_cases hp : p.1 = k
      · simp only [entrySet, if_pos hp, entryGet, List.find?,
          decide_eq_false (Ne.symm h),
          decide_eq_false (show p.1 ≠ k' from hp ▸ Ne.symm h)]
      · by_cases hq : p.1 = k'
        · simp only [entrySet, if_neg hp, entryGet, List.find?, decide_eq_true hq]
        · simp only [entrySet, if_neg hp, entryGet, List.find?, decide_eq_false hq]
          exact ih

/-- Keys absent from the suffix leave the keyed map unchanged. -/
theorem buildAux_skip (oldEls : List Nat) (l : List VNode) (i : Nat)
    (m : List (String × OldEntry)) (k : String)
    (h : ∀ c ∈ l, isKeyed c → c.keyOf.jsString ≠ k) :
    entryGet (buildOldKeyedAux oldEls l i m) k = entryGet m k := by
  induction l generalizing i m with
  | nil => rfl
  | cons c rest ih =>
      rw [buildOldKeyedAux]
      rw [ih (i+1) _ (fun c' hc' => h c' (List.mem_cons_of_mem _ hc'))]
      by_cases hk : isKeyed c
      · rw [if_pos hk]
        exact entryGet_entrySet_other _ _ _ _ (Ne.symm (h c (List.mem_cons_self _ _) hk))
      · rw [if_neg hk]

/-- If a keyed child sits at offset `j` of the suffix and no other child
of the suffix carries the same stringified key, the keyed map resolves
that key to `(child, oldElements[i+j], i+j)`. -/
theorem buildAux_found (oldEls : List Nat) (l : List VNode) (i j : Nat) (c : VNode)
    (m : List (String × OldEntry))
    (hj : l[j]? = some c) (hk : isKeyed c)
    (hlast : ∀ j' c', l[j']? = some c' → isKeyed c' →
       c'.keyOf.jsString = c.keyOf.jsString → j' = j) :
    entryGet (buildOldKeyedAux oldEls l i m) c.keyOf.jsString =
      some ⟨c, oldEls[i+j]?, i+j⟩ := by
  induction l generalizing i j m with
  | nil => simp at hj
  | cons c0 rest ih =>
      cases j with
      | zero =>
          have hc0 : c0 = c := by simpa using hj
          subst hc0
          rw [buildOldKeyedAux, if_pos hk]
          rw [buildAux_skip]
          · simp [entryGet_entrySet_self]
          · intro c' hc' hk' he
            obtain ⟨j'', hj''⟩ := List.getElem?_of_mem hc'
            have : j'' + 1 = 0 := hlast (j''+1) c' (by simpa using hj'') hk' he
            omega
      | succ j' =>
          rw [buildOldKeyedAux]
          have h2 := ih (i+1) j' (if isKeyed c0 then
              entrySet m c0.keyOf.jsString ⟨c0, oldEls[i]?, i⟩ else m)
            (by simpa using hj)
            (fun j'' c' hj'' hk' he => by
              have : j'' + 1 = j' + 1 :=
                hlast (j''+1) c' (by simpa using hj'') hk' he
              omega)
          rw [show i + (j' + 1) = i + 1 + j' from by omega]
          exact h2

/-- The `oldKeyed` map resolves the key of an old child (unique among
the old children) to that child, its live node, and its index. -/
theorem buildOldKeyed_lookup (oldCh : List VNode) (oldEls : List Nat) (j : Nat)
    (c : VNode) (hj : oldCh[j]? = some c) (hk : isKeyed c)
    (hlast : ∀ j' c', oldCh[j']? = some c' → isKeyed c' →
       c'.keyOf.jsString = c.keyOf.jsString → j' = j) :
    entryGet (buildOldKeyed oldCh oldEls) c.keyOf.jsString =
      some ⟨c, oldEls[j]?, j⟩ := by
  have := buildAux_found oldEls oldCh 0 j c [] hj hk hlast
  simpa using this

/-- A keyed new child resolves through the keyed map, whatever its own
position `idx`. -/
theorem childMatch_keyed (oldKeyed : List (String × OldEntry)) (oldCh : List VNode)
    (oldEls matched : List Nat) (nc : VNode) (idx : Nat)
    (hk : isKeyed nc) (e : OldEntry)
    (he : entryGet oldKeyed nc.keyOf.jsString = some e) :
    childMatch oldKeyed oldCh oldEls matched nc idx =
      (some e.vnode, e.dom, e.index :: matched) := by
  simp only [childMatch, hk, if_true, he]

/-- The keyed-reorder scenario: `ul` with keyed `li` children A,B,C
(live nodes 1,3,5; text children 2,4,6), re-rendered as B,A,D. -/
def liA : VNode := .elem "li" [] (.num 1) [.text "A"]

def liB : VNode := .elem "li" [] (.num 2) [.text "B"]

def liC : VNode := .elem "li" [] (.num 3) [.text "C"]

def liD : VNode := .elem "li" [] (.num 4) [.text "D"]

def c1old : VNode := .elem "ul" [] .nullv [liA, liB, liC]

def c1new : VNode := .elem "ul" [] .nullv [liB, liA, liD]

def c1s1 : DState := { (run 100 (.cde c1old) {}).2 with trace := [] }

def c1r : RV × DState := run 100 (.dif 50 (some 0) (some c1old) (some c1new) 0) c1s1

/-- C1: the keyed child diff pairs each new keyed child with the old
child bearing the same (unique) stringified key regardless of position,
consuming that old index; and in the concrete A,B,C → B,A,D scenario
the pass reorders the existing `li` nodes 3 and 1 into place, creates
exactly one new node (7, with its text child 8) for D, removes C's node
5, and leaves nodes 1 and 3 bit-for-bit unchanged (same live objects,
merely moved). -/
theorem C1_keyed_reorder :
    (∀ (oldCh : List VNode) (oldEls matched : List Nat) (nc c : VNode) (idx j : Nat),
       isKeyed nc →
       oldCh[j]? = some c → isKeyed c →
       c.keyOf.jsString = nc.keyOf.jsString →
       (∀ j' c', oldCh[j']? = some c' → isKeyed c' →
          c'.keyOf.jsString = c.keyOf.jsString → j' = j) →
       childMatch (buildOldKeyed oldCh oldEls) oldCh oldEls matched nc idx =
         (some c, oldEls[j]?, j :: matched)) ∧
    c1r.2.crashed = false ∧
    c1r.1.node = some 0 ∧
    childNodes c1r.2 0 = [3, 1, 7] ∧
    c1r.2.trace = [.inserted 3 0, .created 7, .created 8, .inserted 8 7,
                   .inserted 7 0, .removed 5 0] ∧
    c1r.2.nodes 1 = c1s1.nodes 1 ∧
    c1r.2.nodes 3 = c1s1.nodes 3 := by
  refine ⟨?_, by decide, by decide, by decide, by decide, by rfl, by rfl⟩
  intro oldCh oldEls matched nc c idx j hnk hj hkc hkeq hlast
  have hl := buildOldKeyed_lookup oldCh oldEls j c hj hkc hlast
  rw [hkeq] at hl
  exact childMatch_keyed _ _ _ _ _ _ hnk _ hl

/-- C1 witness: in the scenario's old list, new child B (key 2, new
position 0) pairs with old child B at old index 1 and live node 3. -/
theorem C1_witness :
    childMatch (buildOldKeyed [liA, liB, liC] [1, 3, 5]) [liA, liB, liC] [1, 3, 5]
        [] liB 0 = (some liB, some 3, [1]) := by
  have h := C1_keyed_reorder.1 [liA, liB, liC] [1, 3, 5] [] liB liB 0 1
    (by decide) (by rfl) (by decide) rfl ?_
  · simpa using h
  · intro j' c' hj' hk' he'
    match j' with
    | 0 =>
        have : liA = c' := by simpa using hj'
        subst this
        exact absurd he' (by decide)
    | 1 => rfl
    | 2 =>
        have : liC = c' := by simpa using hj'
        subst this
        exact absurd he' (by decide)
    | (n+3) => simp [liA, liB, liC] at hj'

/-- The unkeyed shrink/grow scenario: a `div` with three (resp. two)
text children, rendered down to two resp. up to three. -/
def c5oldCh : List VNode := [.text "x", .text "y", .text "z"]

def c5newCh : List VNode := [.text "x", .text "y"]

def c5base : DState :=
  { (run 100 (.cde (.elem "div" [] .nullv c5oldCh)) {}).2 with trace := [] }

def c5shr : RV × DState := run 100 (.dch (some 0) c5oldCh c5newCh) c5base

def c5base2 : DState :=
  { (run 100 (.cde (.elem "div" [] .nullv c5newCh)) {}).2 with trace := [] }

def c5gr : RV × DState := run 100 (.dch (some 0) c5newCh c5oldCh) c5base2

/-- C5: an unkeyed new child pairs positionally with the old child at
its own index exactly when that index is in range and unconsumed and the
candidate has no truthy key and the same type; otherwise no old child is
paired (the child is then treated as a fresh insert).  Concretely, the
x,y,z → x,y shrink removes exactly trailing node 3 and keeps nodes 1,2
untouched, and the x,y → x,y,z grow creates and appends exactly one
node. -/
theorem C5_unkeyed_positional :
    (∀ (oldKeyed : List (String × OldEntry)) (oldCh : List VNode)
       (oldEls matched : List Nat) (nc cand : VNode) (idx : Nat),
       isKeyed nc = false →
       idx < oldCh.length → idx ∉ matched →
       oldCh[idx]? = some cand →
       ((¬cand.keyOf.truthy ∧ cand.typeOf = nc.typeOf →
          childMatch oldKeyed oldCh oldEls matched nc idx =
            (some cand, oldEls[idx]?, idx :: matched)) ∧
        (¬(¬cand.keyOf.truthy ∧ cand.typeOf = nc.typeOf) →
          childMatch oldKeyed oldCh oldEls matched nc idx =
            (none, none, matched)))) ∧
    (∀ (oldKeyed : List (String × OldEntry)) (oldCh : List VNode)
       (oldEls matched : List Nat) (nc : VNode) (idx : Nat),
       isKeyed nc = false →
       (oldCh.length ≤ idx ∨ idx ∈ matched) →
       childMatch oldKeyed oldCh oldEls matched nc idx = (none, none, matched)) ∧
    c5shr.2.crashed = false ∧
    childNodes c5shr.2 0 = [1, 2] ∧
    c5shr.2.trace = [.removed 3 0] ∧
    c5gr.2.crashed = false ∧
    childNodes c5gr.2 0 = [1, 2, 3] ∧
    c5gr.2.trace = [.created 3, .inserted 3 0] := by
  refine ⟨?_, ?_, by decide, by decide, by decide, by decide, by decide, by decide⟩
  · intro oldKeyed oldCh oldEls matched nc cand idx hnk hlt hnm hc
    constructor
    · intro hok
      simp only [childMatch, hnk, Bool.false_eq_true, if_false,
        if_pos (And.intro hlt hnm), hc, if_pos hok]
    · intro hbad
      simp only [childMatch, hnk, Bool.false_eq_true, if_false,
        if_pos (And.intro hlt hnm), hc, if_neg hbad]
  · intro oldKeyed oldCh oldEls matched nc idx hnk hout
    have : ¬(idx < oldCh.length ∧ idx ∉ matched) := by
      rcases hout with h | h
      · exact fun hx => absurd hx.1 (by omega)
      · exact fun hx => hx.2 h
    simp only [childMatch, hnk, Bool.false_eq_true, if_false, if_neg this]

/-- C5 witness: an unkeyed text child at index 0 pairs with the unkeyed
old text child at index 0. -/
theorem C5_witness :
    childMatch [] [VNode.text "x"] [7] [] (VNode.text "q") 0 =
      (some (VNode.text "x"), some 7, [0]) := by
  have h := ((C5_unkeyed_positional.1) [] [VNode.text "x"] [7] [] (VNode.text "q")
      (VNode.text "x") 0 (by decide) (by decide) (by decide) rfl).1 (by decide)
  simpa using h

/-! C4 : type-change replacement and the `unmountChildren` walk -/

/-- A finite tree of live-DOM node ids, used to describe the subtree
that `diff`'s local `unmountChildren` walks. -/
inductive DTree where
  | node (id : Nat) (kids : List DTree)

def treeId : DTree → Nat
  | .node i _ => i

mutual
/-- The heap realizes the tree: each tree node's recorded children are
exactly the ids of its subtrees, recursively. -/
def treeMatches (nd : Nat → DNode) : DTree → Bool
  | .node n kids => decide ((nd n).children = kids.map treeId) && forestMatches nd kids
def forestMatches (nd : Nat → DNode) : List DTree → Bool
  | [] => true
  | t :: ts => treeMatches nd t && forestMatches nd ts
end

def instOf (nd : Nat → DNode) (n : Nat) : Option Nat := (nd n).inst

mutual
/-- The instances attached in a subtree (root included), in the
post-order in which `unmountChildren` reaches them. -/
def treeInsts (nd : Nat → DNode) : DTree → List Nat
  | .node n kids => forestInsts nd kids ++ (instOf nd n).toList
def forestInsts (nd : Nat → DNode) : List DTree → List Nat
  | [] => []
  | t :: ts => treeInsts nd t ++ forestInsts nd ts
end

/-- The instances attached strictly below the root. -/
def descInsts (nd : Nat → DNode) : DTree → List Nat
  | .node _ kids => forestInsts nd kids

/-- The `componentWillUnmount` event a single node contributes (none
when it carries no instance or its instance is already unmounted). -/
def cwuOwn (nd : Nat → DNode) (ins : Nat → Inst) (t : DTree) : List Ev :=
  match instOf nd (treeId t) with
  | some i => if (ins i).isUnmounted then [] else [.willUnmount i]
  | none => []

mutual
/-- The full event list of `unmountChildren(root)`: post-order over the
strict descendants, nothing for the root itself. -/
def cwuList (nd : Nat → DNode) (ins : Nat → Inst) : DTree → List Ev
  | .node _ kids => cwuListL nd ins kids
def cwuListL (nd : Nat → DNode) (ins : Nat → Inst) : List DTree → List Ev
  | [] => []
  | t :: ts => cwuList nd ins t ++ cwuOwn nd ins t ++ cwuListL nd ins ts
end

mutual
/-- Sufficient interpreter fuel for the walk. -/
def uchNeed : DTree → Nat
  | .node _ kids => uchNeedL kids + 1
def uchNeedL : List DTree → Nat
  | [] => 1
  | t :: ts => uchNeed t + uchNeedL ts + 1
end

def unmFlag (i : Inst) : Inst := { i with isUnmounted := true, isMounted := false }

/-- Set the unmounted flags of every instance in `l`. -/
def applyUnm (l : List Nat) (f : Nat → Inst) : Nat → Inst :=
  fun j => if j ∈ l then unmFlag (f j) else f j

theorem applyUnm_nil (f : Nat → Inst) : applyUnm [] f = f :=
  funext fun j => by simp [applyUnm]

theorem unmFlag_idem (i : Inst) : unmFlag (unmFlag i) = unmFlag i := rfl

theorem applyUnm_append (l1 l2 : List Nat) (f : Nat → Inst) :
    applyUnm l2 (applyUnm l1 f) = applyUnm (l1 ++ l2) f := by
  funext j
  simp only [applyUnm, List.mem_append]
  by_cases h1 : j ∈ l1 <;> by_cases h2 : j ∈ l2 <;>
    simp [h1, h2, unmFlag_idem]

theorem applyUnm_snoc (l : List Nat) (f : Nat → Inst) (j : Nat) :
    (fun m => if m = j then unmFlag (applyUnm l f j) else applyUnm l f m) =
      applyUnm (l ++ [j]) f := by
  funext m
  by_cases hm : m = j
  · subst hm
    simp only [if_pos rfl, applyUnm, List.mem_append, List.mem_singleton]
    by_cases h1 : m ∈ l <;> simp [h1, unmFlag_idem]
  · simp [applyUnm, hm]

theorem cwu_fires_only_insts :
    ∀ (m : Nat) (nd : Nat → DNode) (ins : Nat → Inst) (ts : List DTree),
      sizeOf ts ≤ m →
      ∀ e ∈ cwuListL nd ins ts, ∃ i, i ∈ forestInsts nd ts ∧ e = .willUnmount i := by
  intro m
  induction m with
  | zero =>
      intro nd ins ts h e he
      cases ts with
      | nil => simp [cwuListL] at he
      | cons t rest => simp at h
  | succ m ih =>
      intro nd ins ts h e he
      cases ts with
      | nil => simp [cwuListL] at he
      | cons t rest =>
          cases t with
          | node n kids =>
              have hsz : sizeOf kids ≤ m ∧ sizeOf rest ≤ m := by
                simp only [List.cons.sizeOf_spec, DTree.node.sizeOf_spec] at h
                omega
              simp only [cwuListL, cwuList, List.append_assoc, List.mem_append] at he
              rcases he with hk | ho | hr
              · obtain ⟨i, hi, hei⟩ := ih nd ins kids hsz.1 e hk
                exact ⟨i, by
                  simp only [forestInsts, treeInsts, List.mem_append]
                  exact Or.inl (Or.inl hi), hei⟩
              · cases hv : instOf nd n with
                | none => simp only [cwuOwn, treeId, hv] at ho; simp at ho
                | some i =>
                    simp only [cwuOwn, treeId, hv] at ho
                    by_cases hu : (ins i).isUnmounted
                    · simp [hu] at ho
                    · rw [if_neg hu] at ho
                      simp only [List.mem_singleton] at ho
                      refine ⟨i, ?_, ho⟩
                      simp only [forestInsts, treeInsts, List.mem_append]
                      exact Or.inl (Or.inr (by simp [hv]))
              · obtain ⟨i, hi, hei⟩ := ih nd ins rest hsz.2 e hr
                exact ⟨i, by
                  simp only [forestInsts, List.mem_append]
                  exact Or.inr hi, hei⟩

theorem cwu_fires_all :
    ∀ (m : Nat) (nd : Nat → DNode) (ins : Nat → Inst) (ts : List DTree),
      sizeOf ts ≤ m →
      ∀ i ∈ forestInsts nd ts, (ins i).isUnmounted = false →
        Ev.willUnmount i ∈ cwuListL nd ins ts := by
  intro m
  induction m with
  | zero =>
      intro nd ins ts h i hi
      cases ts with
      | nil => simp [forestInsts] at hi
      | cons t rest => simp at h
  | succ m ih =>
      intro nd ins ts h i hi hu
      cases ts with
      | nil => simp [forestInsts] at hi
      | cons t rest =>
          cases t with
          | node n kids =>
              have hsz : sizeOf kids ≤ m ∧ sizeOf rest ≤ m := by
                simp only [List.cons.sizeOf_spec, DTree.node.sizeOf_spec] at h
                omega
              simp only [forestInsts, treeInsts, List.mem_append] at hi
              simp only [cwuListL, cwuList, List.append_assoc, List.mem_append]
              rcases hi with (hk | hown) | hr
              · exact Or.inl (ih nd ins kids hsz.1 i hk hu)
              · refine Or.inr (Or.inl ?_)
                cases hv : instOf nd n with
                | none => simp [hv] at hown
                | some j =>
                    rw [hv] at hown
                    simp only [Option.toList_some, List.mem_singleton] at hown
                    subst hown
                    simp [cwuOwn, treeId, hv, hu]
              · exact Or.inr (Or.inr (ih nd ins rest hsz.2 i hr hu))



theorem uchNeed_pos : ∀ t : DTree, 1 ≤ uchNeed t := by
  intro t; cases t with | node n kids => simp [uchNeed]

theorem uchNeedL_pos : ∀ ts : List DTree, 1 ≤ uchNeedL ts := by
  intro ts; cases ts with
  | nil => simp [uchNeedL]
  | cons t rest => simp [uchNeedL]

theorem unmountInstanceOn_none (s : DState) (n : Nat)
    (hv : (s.nodes n).inst = none) (hcr : s.crashed = false) :
    unmountInstanceOn s n = s := by
  unfold unmountInstanceOn
  rw [if_neg (by simp [hcr])]
  cases hw : (s.nodes n).inst with
  | none => rfl
  | some i => rw [hw] at hv; cases hv

theorem unmountInstanceOn_some (s : DState) (n j : Nat)
    (hv : (s.nodes n).inst = some j) (hcr : s.crashed = false) :
    unmountInstanceOn s n =
      (if ¬(s.insts j).isUnmounted then
        (let s2 := s.emit (.willUnmount j)
         if (s2.insts j).cwuThrows then s2.crash else s2)
       else s).setInst j
        (fun ins => { ins with isUnmounted := true, isMounted := false }) := by
  unfold unmountInstanceOn
  rw [if_neg (by simp [hcr])]
  cases hw : (s.nodes n).inst with
  | none => rw [hw] at hv; cases hv
  | some i => rw [hw] at hv; cases hv; rfl

theorem emit_not_crashed (s : DState) (e : Ev) (hcr : s.crashed = false) :
    s.emit e = { s with trace := s.trace ++ [e] } := by
  unfold DState.emit
  rw [if_neg (by simp [hcr])]

theorem unmount_head (s : DState) (n : Nat) (i0 : Nat → Inst) (kids : List DTree)
    (hcr : s.crashed = false)
    (hnd : (treeInsts s.nodes (.node n kids)).Nodup)
    (hag : ∀ i ∈ treeInsts s.nodes (.node n kids), s.insts i = i0 i)
    (hth : ∀ i ∈ treeInsts s.nodes (.node n kids), (i0 i).cwuThrows = false)
    (tr : List Ev) :
    unmountInstanceOn
      { s with
         insts := applyUnm (descInsts s.nodes (.node n kids)) s.insts,
         trace := tr } n =
      { s with
         insts := applyUnm (treeInsts s.nodes (.node n kids)) s.insts,
         trace := tr ++ cwuOwn s.nodes i0 (.node n kids) } := by
  cases hv : (s.nodes n).inst with
  | none =>
      rw [unmountInstanceOn_none
        { s with
           insts := applyUnm (descInsts s.nodes (.node n kids)) s.insts,
           trace := tr } n (by exact hv) (by exact hcr)]
      simp [cwuOwn, treeId, instOf, hv, treeInsts, descInsts]
  | some j =>
      have hjmem : j ∈ treeInsts s.nodes (.node n kids) := by
        simp [treeInsts, instOf, hv]
      have hjn : j ∉ descInsts s.nodes (.node n kids) := by
        have h1 := hnd
        simp only [treeInsts, instOf, hv, Option.toList_some] at h1
        have h2 := (List.nodup_append.mp h1).2.2
        intro hc
        exact h2 (by simpa [descInsts] using hc) (by simp)
      have hS1j : applyUnm (descInsts s.nodes (.node n kids)) s.insts j = i0 j := by
        simp only [applyUnm]
        rw [if_neg hjn]
        exact hag j hjmem
      rw [unmountInstanceOn_some
        { s with
           insts := applyUnm (descInsts s.nodes (.node n kids)) s.insts,
           trace := tr } n j (by exact hv) (by exact hcr)]
      dsimp only
      by_cases hu : (i0 j).isUnmounted = true
      · rw [if_neg (by rw [hS1j]; simp [hu])]
        unfold DState.setInst
        rw [if_neg (by simp [hcr])]
        dsimp only
        simp only [DState.mk.injEq, and_true, true_and]
        refine ⟨?_, ?_⟩
        · rw [show treeInsts s.nodes (.node n kids) =
              descInsts s.nodes (.node n kids) ++ [j] from by
                simp [treeInsts, descInsts, instOf, hv]]
          exact applyUnm_snoc _ _ _
        · simp [cwuOwn, treeId, instOf, hv, hu]
      · rw [if_pos (by rw [hS1j]; simp [hu])]
        rw [emit_not_crashed _ _ (by exact hcr)]
        dsimp only
        rw [if_neg (show ¬((applyUnm (descInsts s.nodes (.node n kids))
            s.insts j).cwuThrows = true) from by
          rw [hS1j]; simp [hth j hjmem])]
        unfold DState.setInst
        rw [if_neg (by simp [hcr])]
        dsimp only
        simp only [DState.mk.injEq, and_true, true_and]
        refine ⟨?_, ?_⟩
        · rw [show treeInsts s.nodes (.node n kids) =
              descInsts s.nodes (.node n kids) ++ [j] from by
                simp [treeInsts, descInsts, instOf, hv]]
          exact applyUnm_snoc _ _ _
        · rw [show cwuOwn s.nodes i0 (.node n kids) = [Ev.willUnmount j] from by
              simp [cwuOwn, treeId, instOf, hv, hu]]

theorem uch_walk : ∀ (fuel : Nat),
    (∀ (t : DTree) (s : DState) (i0 : Nat → Inst),
       s.crashed = false →
       treeMatches s.nodes t →
       (descInsts s.nodes t).Nodup →
       (∀ i ∈ descInsts s.nodes t, s.insts i = i0 i) →
       (∀ i ∈ descInsts s.nodes t, (i0 i).cwuThrows = false) →
       uchNeed t ≤ fuel →
       run fuel (.uch (some (treeId t))) s =
         ({}, { s with
                 trace := s.trace ++ cwuList s.nodes i0 t,
                 insts := applyUnm (descInsts s.nodes t) s.insts })) ∧
    (∀ (d : Nat) (ts : List DTree) (k : Nat) (s : DState) (i0 : Nat → Inst),
       s.crashed = false →
       ((s.nodes d).children).drop k = ts.map treeId →
       forestMatches s.nodes ts →
       (forestInsts s.nodes ts).Nodup →
       (∀ i ∈ forestInsts s.nodes ts, s.insts i = i0 i) →
       (∀ i ∈ forestInsts s.nodes ts, (i0 i).cwuThrows = false) →
       uchNeedL ts ≤ fuel →
       run fuel (.uchKids d k) s =
         ({}, { s with
                 trace := s.trace ++ cwuListL s.nodes i0 ts,
                 insts := applyUnm (forestInsts s.nodes ts) s.insts })) := by
  intro fuel
  induction fuel with
  | zero =>
      constructor
      · intro t s i0 _ _ _ _ _ hf
        have := uchNeed_pos t
        omega
      · intro d ts k s i0 _ _ _ _ _ _ hf
        have := uchNeedL_pos ts
        omega
  | succ fuel ih =>
      obtain ⟨ih1, ih2⟩ := ih
      constructor
      · rintro ⟨n, kids⟩ s i0 hcr hm hnd hag hth hf
        rw [run]
        dsimp only [treeId]
        simp only [treeMatches, Bool.and_eq_true, decide_eq_true_eq] at hm
        rw [ih2 n kids 0 s i0 hcr (by simpa using hm.1) hm.2
            (by simpa only [descInsts] using hnd)
            (by simpa only [descInsts] using hag)
            (by simpa only [descInsts] using hth)
            (by simp only [uchNeed] at hf; omega)]
        simp only [cwuList, descInsts]
      · intro d ts k s i0 hcr hdrop hfm hnd hag hth hf
        cases ts with
        | nil =>
            rw [run]
            dsimp only
            have hlen : (s.nodes d).children.length ≤ k := by
              rw [← List.drop_eq_nil_iff]
              simpa using hdrop
            rw [show (childNodes s d)[k]? = none from
              List.getElem?_eq_none hlen]
            simp only [cwuListL, forestInsts, List.append_nil, applyUnm_nil]
        | cons t rest =>
            obtain ⟨n, kids⟩ := t
            have hk : (childNodes s d)[k]? = some n := by
              have h0 : ((s.nodes d).children.drop k)[0]? = some n := by
                rw [hdrop]; simp [treeId]
              rw [List.getElem?_drop] at h0
              simpa using h0
            rw [run]
            dsimp only
            rw [hk]
            dsimp only
            -- hypotheses decomposition
            simp only [forestMatches, Bool.and_eq_true] at hfm
            have hndT : (treeInsts s.nodes (.node n kids)).Nodup ∧
                (forestInsts s.nodes rest).Nodup ∧
                (treeInsts s.nodes (.node n kids)).Disjoint
                  (forestInsts s.nodes rest) := by
              have := hnd
              simp only [forestInsts] at this
              exact List.nodup_append.mp this
            have hsubT : ∀ i ∈ treeInsts s.nodes (.node n kids),
                i ∈ forestInsts s.nodes (.node n kids :: rest) := by
              intro i hi
              simp only [forestInsts, List.mem_append]
              exact Or.inl hi
            have hsubD : ∀ i ∈ descInsts s.nodes (.node n kids),
                i ∈ forestInsts s.nodes (.node n kids :: rest) := by
              intro i hi
              exact hsubT i (by
                simp only [treeInsts, List.mem_append, descInsts] at hi ⊢
                exact Or.inl hi)
            have hndD : (descInsts s.nodes (.node n kids)).Nodup := by
              have := hndT.1
              simp only [treeInsts] at this
              exact (List.nodup_append.mp this).1
            -- step 1: the recursive uch on the head child
            have hstep := ih1 ⟨n, kids⟩ s i0 hcr hfm.1 hndD
                (fun i hi => hag i (hsubD i hi))
                (fun i hi => hth i (hsubD i hi))
                (by simp only [uchNeedL] at hf; have := uchNeed_pos (.node n kids); omega)
            simp only [treeId] at hstep
            rw [hstep]
            dsimp only
            -- step 2: the head child's own instance
            rw [unmount_head s n i0 kids hcr hndT.1
                (fun i hi => hag i (hsubT i hi))
                (fun i hi => hth i (hsubT i hi))
                (s.trace ++ cwuList s.nodes i0 (.node n kids))]
            -- step 3: the rest of the sibling loop
            have hrest := ih2 d rest (k+1)
                { s with
                   insts := applyUnm (treeInsts s.nodes (.node n kids)) s.insts,
                   trace := s.trace ++ cwuList s.nodes i0 (.node n kids) ++
                     cwuOwn s.nodes i0 (.node n kids) } i0
                (by dsimp only; exact hcr)
                (by dsimp only; rw [← List.tail_drop, hdrop]; rfl)
                (by dsimp only; exact hfm.2)
                (by dsimp only; exact hndT.2.1)
                (by
                  intro i hi
                  dsimp only at hi ⊢
                  simp only [applyUnm]
                  rw [if_neg (fun hT => hndT.2.2 hT hi)]
                  exact hag i (by simp only [forestInsts, List.mem_append]; exact Or.inr hi))
                (by
                  intro i hi
                  dsimp only at hi
                  exact hth i (by simp only [forestInsts, List.mem_append]; exact Or.inr hi))
                (by
                  simp only [uchNeedL] at hf ⊢
                  omega)
            rw [hrest]
            dsimp only
            simp only [DState.mk.injEq, Prod.mk.injEq, and_true, true_and]
            refine ⟨?_, ?_⟩
            · rw [applyUnm_append]
              simp only [forestInsts]
            · simp only [cwuListL, List.append_assoc]


theorem dif_type_change (fuel p idx d : Nat) (s : DState) (ov nv : VNode)
    (hd : ov.typeOf ≠ nv.typeOf) :
    run (fuel+1) (.dif p (some d) (some ov) (some nv) idx) s =
      ({ node := (run fuel (.cde nv) s).1.node },
       replaceChild (run fuel (.uch (some d)) (run fuel (.cde nv) s).2).2 p
         ((run fuel (.cde nv) s).1.node.getD 0) d) := by
  cases ov <;> cases nv <;>
    first
      | exact absurd rfl hd
      | (rw [run, if_pos hd]) <;> (intros; simp_all)

theorem cde_node_fresh (fuel : Nat) (v : VNode) (s : DState) :
    (run (fuel+1) (.cde v) s).1.node = some s.fresh := by
  cases v <;> (rw [run]; by_cases h : s.crashed = true <;> simp [createNode, h])

def c4oldV : VNode := .elem "div" [] .nullv [.elem "section" [] .nullv []]

def c4newV : VNode := .text "bye"

/-- The replace scenario: container 0 holds node 1 (a `div` owned by
component instance 7) whose child node 2 (a `section`) carries nested
component instance 5. -/
def c4base : DState :=
  { nodes := fun n =>
      if n = 0 then { kind := .delem "div", children := [1] }
      else if n = 1 then { kind := .delem "div", children := [2], inst := some 7 }
      else if n = 2 then { kind := .delem "section", children := [], inst := some 5 }
      else {},
    parentOf := fun n => if n = 1 then some 0 else if n = 2 then some 1 else none,
    fresh := 3 }

def c4r : RV × DState := run 50 (.dif 0 (some 1) (some c4oldV) (some c4newV) 0) c4base

/-- C4: when old and new descriptions are both present but of different
type, `diff` materializes the new description, walks the old subtree
with the local `unmountChildren`, and swaps the old node for the fresh
one via `replaceChild`; the walk fires `componentWillUnmount` exactly
once for each not-yet-unmounted instance attached strictly below the
root (post-order), and never for an instance not attached below the
root — in particular not for the instance owning the replaced node
itself.  Concretely, replacing node 1 (owned by instance 7, with nested
instance 5 on child node 2) by a text node fires the hook for 5 only. -/
theorem C4_type_change_replace :
    (∀ (fuel p idx d : Nat) (s : DState) (ov nv : VNode),
       ov.typeOf ≠ nv.typeOf →
       run (fuel+1) (.dif p (some d) (some ov) (some nv) idx) s =
         ({ node := (run fuel (.cde nv) s).1.node },
          replaceChild (run fuel (.uch (some d)) (run fuel (.cde nv) s).2).2 p
            ((run fuel (.cde nv) s).1.node.getD 0) d)) ∧
    (∀ (fuel : Nat) (v : VNode) (s : DState),
       (run (fuel+1) (.cde v) s).1.node = some s.fresh) ∧
    (∀ (fuel : Nat) (t : DTree) (s : DState) (i0 : Nat → Inst),
       s.crashed = false →
       treeMatches s.nodes t →
       (descInsts s.nodes t).Nodup →
       (∀ i ∈ descInsts s.nodes t, s.insts i = i0 i) →
       (∀ i ∈ descInsts s.nodes t, (i0 i).cwuThrows = false) →
       uchNeed t ≤ fuel →
       (run fuel (.uch (some (treeId t))) s).2.trace =
           s.trace ++ cwuList s.nodes i0 t ∧
         (∀ i ∈ descInsts s.nodes t, (i0 i).isUnmounted = false →
            Ev.willUnmount i ∈ cwuList s.nodes i0 t) ∧
         (∀ j, j ∉ descInsts s.nodes t → Ev.willUnmount j ∉ cwuList s.nodes i0 t)) ∧
    (c4r.2.crashed = false ∧ c4r.1.node = some 3 ∧
     childNodes c4r.2 0 = [3] ∧
     c4r.2.trace = [.created 3, .willUnmount 5, .inserted 3 0, .replaced 1 3 0] ∧
     (c4r.2.insts 5).isUnmounted = true ∧
     (c4r.2.insts 7).isUnmounted = false ∧
     Ev.willUnmount 7 ∉ c4r.2.trace) := by
  refine ⟨fun fuel p idx d s ov nv hd => dif_type_change fuel p idx d s ov nv hd,
    cde_node_fresh, ?_, by decide⟩
  intro fuel t s i0 hcr hm hnd hag hth hf
  obtain ⟨n, kids⟩ := t
  refine ⟨?_, ?_, ?_⟩
  · rw [(uch_walk fuel).1 ⟨n, kids⟩ s i0 hcr hm hnd hag hth hf]
  · intro i hi hu
    simp only [descInsts] at hi
    simp only [cwuList]
    exact cwu_fires_all (sizeOf kids) s.nodes i0 kids le_rfl i hi hu
  · intro j hj hmem
    simp only [cwuList] at hmem
    obtain ⟨i, hi, hei⟩ :=
      cwu_fires_only_insts (sizeOf kids) s.nodes i0 kids le_rfl _ hmem
    cases hei
    exact hj (by simpa [descInsts] using hi)

/-- C4 witness: the type-change branch shape at the concrete replace
scenario. -/
theorem C4_witness :
    run 50 (.dif 0 (some 1) (some c4oldV) (some c4newV) 0) c4base =
      ({ node := (run 49 (.cde c4newV) c4base).1.node },
       replaceChild (run 49 (.uch (some 1)) (run 49 (.cde c4newV) c4base).2).2 0
         ((run 49 (.cde c4newV) c4base).1.node.getD 0) 1) :=
  C4_type_change_replace.1 49 0 0 1 c4base c4oldV c4newV (by decide)

/-! C6 : self-diff of a materialized tree -/

/-- Stringified keys of the keyed children of a sibling list. -/
def keyStrs (l : List VNode) : List String :=
  (l.filter isKeyed).map (fun c => c.keyOf.jsString)

mutual
/-- The fragment-free, ref-free, uniquely-keyed description trees for
which a self-diff is a strict no-op: no fragments anywhere, no `ref`
prop on any element, and the keyed children of every sibling list carry
pairwise distinct stringified keys. -/
def Good : VNode → Bool
  | .text _ => true
  | .frag _ _ _ => false
  | .elem _ props _ ch =>
      !(objHas props "ref") && decide (keyStrs ch).Nodup && GoodL ch
def GoodL : List VNode → Bool
  | [] => true
  | v :: vs => Good v && GoodL vs
end

mutual
/-- The live heap realizes the description: the node's stored `__vnode`
is the description and its recorded children realize the child
descriptions index by index. -/
def corr : (Nat → DNode) → Nat → VNode → Prop
  | _, _, .text _ => True
  | nd, n, .elem tag props key ch =>
      (nd n).vn = some (.elem tag props key ch) ∧ corrL nd (nd n).children ch
  | _, _, .frag _ _ _ => False
def corrL : (Nat → DNode) → List Nat → List VNode → Prop
  | _, [], [] => True
  | nd, e :: es, v :: vs => corr nd e v ∧ corrL nd es vs
  | _, _, _ => False
end

mutual
/-- Sufficient fuel for a self-diff. -/
def diffNeed : VNode → Nat
  | .text _ => 1
  | .elem _ _ _ ch => loopNeed ch + ch.length + 3
  | .frag _ _ _ => 1
def loopNeed : List VNode → Nat
  | [] => 1
  | v :: vs => diffNeed v + loopNeed vs + 1
end

/-- `matched` after the loop has consumed indices `k-1, ..., 0`. -/
def revRange : Nat → List Nat
  | 0 => []
  | k+1 => k :: revRange k

theorem mem_revRange (m k : Nat) : m ∈ revRange k ↔ m < k := by
  induction k with
  | zero => simp [revRange]
  | succ k ih => simp [revRange, ih]; omega

theorem diffNeed_pos (v : VNode) : 1 ≤ diffNeed v := by
  cases v <;> simp [diffNeed]

theorem loopNeed_pos (l : List VNode) : 1 ≤ loopNeed l := by
  cases l <;> simp [loopNeed]

theorem GoodL_idx (l : List VNode) (h : GoodL l) (i : Nat) (c : VNode)
    (hc : l[i]? = some c) : Good c := by
  induction l generalizing i with
  | nil => simp at hc
  | cons a rest ih =>
      simp only [GoodL, Bool.and_eq_true] at h
      cases i with
      | zero => cases (by simpa using hc : a = c); exact h.1
      | succ i => exact ih h.2 i (by simpa using hc)

theorem corrL_idx (nd : Nat → DNode) (es : List Nat) (vs : List VNode)
    (h : corrL nd es vs) (i : Nat) (v : VNode) (hv : vs[i]? = some v) :
    ∃ e, es[i]? = some e ∧ corr nd e v := by
  induction vs generalizing es i with
  | nil => simp at hv
  | cons a rest ih =>
      cases es with
      | nil => simp [corrL] at h
      | cons e es' =>
          simp only [corrL] at h
          cases i with
          | zero =>
              cases (by simpa using hv : a = v)
              exact ⟨e, by simp, h.1⟩
          | succ i =>
              obtain ⟨e', he', hc⟩ := ih es' h.2 i (by simpa using hv)
              exact ⟨e', by simpa using he', hc⟩

theorem corrL_length (nd : Nat → DNode) (es : List Nat) (vs : List VNode)
    (h : corrL nd es vs) : es.length = vs.length := by
  induction vs generalizing es with
  | nil => cases es with
      | nil => rfl
      | cons e es' => simp [corrL] at h
  | cons a rest ih =>
      cases es with
      | nil => simp [corrL] at h
      | cons e es' =>
          simp only [corrL] at h
          simpa using ih es' h.2

theorem notKeyed_not_truthy (c : VNode) (h : ¬(isKeyed c = true)) :
    c.keyOf.truthy = false := by
  by_cases h1 : c.keyOf = JVal.nullv
  · rw [h1]; rfl
  · by_cases h2 : c.keyOf = JVal.undef
    · rw [h2]; rfl
    · exact absurd (by simp [isKeyed, h1, h2]) h

theorem nodup_key_index (l : List VNode) (h : (keyStrs l).Nodup)
    (i j : Nat) (c c' : VNode) (hi : l[i]? = some c) (hj : l[j]? = some c')
    (hk : isKeyed c) (hk' : isKeyed c')
    (he : c.keyOf.jsString = c'.keyOf.jsString) : i = j := by
  induction l generalizing i j with
  | nil => simp at hi
  | cons a rest ih =>
      cases i with
      | zero =>
          cases (by simpa using hi : a = c)
          cases j with
          | zero => rfl
          | succ j =>
              exfalso
              have hmem : c'.keyOf.jsString ∈ keyStrs rest := by
                have : c' ∈ rest := by
                  have := hj
                  simp only [List.getElem?_cons_succ] at this
                  exact List.getElem?_mem this
                simp only [keyStrs, List.mem_map]
                exact ⟨c', List.mem_filter.mpr ⟨this, hk'⟩, rfl⟩
              have hns : (keyStrs (c :: rest)) = c.keyOf.jsString :: keyStrs rest := by
                simp [keyStrs, List.filter_cons, hk]
              rw [hns] at h
              exact (List.nodup_cons.mp h).1 (he ▸ hmem)
      | succ i =>
          cases j with
          | zero =>
              cases (by simpa using hj : a = c')
              exfalso
              have hmem : c.keyOf.jsString ∈ keyStrs rest := by
                have : c ∈ rest := by
                  have := hi
                  simp only [List.getElem?_cons_succ] at this
                  exact List.getElem?_mem this
                simp only [keyStrs, List.mem_map]
                exact ⟨c, List.mem_filter.mpr ⟨this, hk⟩, rfl⟩
              have hns : (keyStrs (c' :: rest)) = c'.keyOf.jsString :: keyStrs rest := by
                simp [keyStrs, List.filter_cons, hk']
              rw [hns] at h
              exact (List.nodup_cons.mp h).1 (he ▸ hmem)
          | succ j =>
              have htl : (keyStrs rest).Nodup := by
                by_cases hka : isKeyed a
                · have hns : (keyStrs (a :: rest)) =
                      a.keyOf.jsString :: keyStrs rest := by
                    simp [keyStrs, List.filter_cons, hka]
                  rw [hns] at h
                  exact (List.nodup_cons.mp h).2
                · have hns : (keyStrs (a :: rest)) = keyStrs rest := by
                    simp [keyStrs, List.filter_cons, hka]
                  rwa [hns] at h
              have := ih htl i j (by simpa using hi) (by simpa using hj)
              omega



theorem foldl_id {α β : Type} (f : α → β → α) (l : List β) (s : α)
    (h : ∀ q ∈ l, ∀ x, f x q = x) : l.foldl f s = s := by
  induction l generalizing s with
  | nil => rfl
  | cons a rest ih =>
      rw [List.foldl_cons, h a (List.mem_cons_self _ _)]
      exact ih s (fun q hq x => h q (List.mem_cons_of_mem _ hq) x)

theorem objHas_of_mem (l : Obj) (q : String × JVal) (h : q ∈ l) :
    objHas l q.1 = true := by
  simp only [objHas, List.any_eq_true]
  exact ⟨q, h, by simp⟩

theorem removeOldProp_self (s : DState) (el : Option Nat) (p : Obj)
    (name : String) (v : JVal) (h : objHas p name = true) :
    removeOldProp s el p name v = s := by
  unfold removeOldProp
  by_cases hc : s.crashed = true
  · rw [if_pos hc]
  · rw [if_neg hc, if_pos h]

theorem updateNewProp_self (s : DState) (el : Option Nat) (p : Obj)
    (name : String) (href : name ≠ "ref") :
    updateNewProp s el p p name = s := by
  unfold updateNewProp
  by_cases hc : s.crashed = true
  · rw [if_pos hc]
  · rw [if_neg hc]
    by_cases hck : name = "children" ∨ name = "key"
    · rw [if_pos hck]
    · rw [if_neg hck, if_pos (And.intro rfl href)]

theorem updateProps_self (s : DState) (el : Option Nat) (p : Obj)
    (href : objHas p "ref" = false) :
    updateProps s el p p = s := by
  unfold updateProps
  dsimp only
  rw [foldl_id (fun s q => removeOldProp s el p q.1 (objGet p q.1)) p s
    (fun q hq x => removeOldProp_self x el p q.1 _ (objHas_of_mem p q hq))]
  exact foldl_id _ p s (fun q hq x => updateNewProp_self x el p q.1
    (fun he => by
      have hm := objHas_of_mem p q hq
      rw [he] at hm
      rw [hm] at href
      cases href))

theorem dnode_vn_self (x : DNode) (v : VNode) (h : x.vn = some v) :
    { x with vn := some v } = x := by
  cases x
  cases h
  rfl

theorem setNode_vn_self (s : DState) (d : Nat) (v : VNode)
    (h : (s.nodes d).vn = some v) (hcr : s.crashed = false) :
    s.setNode d (fun nd => { nd with vn := some v }) = s := by
  unfold DState.setNode
  rw [if_neg (by simp [hcr])]
  have hfn : (fun m => if m = d then { s.nodes d with vn := some v }
      else s.nodes m) = s.nodes := by
    funext m
    by_cases hm : m = d
    · subst hm; rw [if_pos rfl]; exact dnode_vn_self _ _ h
    · rw [if_neg hm]
  rw [hfn]



theorem self_diff : ∀ (fuel : Nat),
    (∀ (p idx d : Nat) (v : VNode) (s : DState),
       s.crashed = false → Good v → corr s.nodes d v → diffNeed v ≤ fuel →
       run fuel (.dif p (some d) (some v) (some v) idx) s =
         ({ node := some d }, s)) ∧
    (∀ (d : Nat) (ch : List VNode) (s : DState),
       s.crashed = false → GoodL ch → (keyStrs ch).Nodup →
       corrL s.nodes (childNodes s d) ch →
       loopNeed ch + ch.length + 2 ≤ fuel →
       run fuel (.dch (some d) ch ch) s = ({}, s)) ∧
    (∀ (d : Nat) (full : List VNode) (oldEls : List Nat) (k : Nat) (s : DState),
       s.crashed = false → GoodL full → (keyStrs full).Nodup →
       oldEls = childNodes s d → corrL s.nodes oldEls full →
       k ≤ full.length → loopNeed (full.drop k) ≤ fuel →
       run fuel (.dchLoop d (buildOldKeyed full oldEls) full oldEls
           (full.drop k) k (revRange k)) s =
         ({ matched := revRange full.length }, s)) ∧
    (∀ (d : Nat) (oldEls matched : List Nat) (i len : Nat) (s : DState),
       (∀ m, m < len → m ∈ matched) → len + 1 ≤ fuel + i → 1 ≤ fuel →
       run fuel (.dchRemove d oldEls matched i len) s = ({}, s)) := by
  intro fuel
  induction fuel with
  | zero =>
      refine ⟨?_, ?_, ?_, ?_⟩
      · intro p idx d v s _ _ _ hf
        have := diffNeed_pos v
        omega
      · intro d ch s _ _ _ _ hf
        have := loopNeed_pos ch
        omega
      · intro d full oldEls k s _ _ _ _ _ _ hf
        have := loopNeed_pos (full.drop k)
        omega
      · intro d oldEls matched i len s _ hf h1
        omega
  | succ fuel ih =>
      obtain ⟨ihDif, ihDch, ihLoop, ihRem⟩ := ih
      refine ⟨?_, ?_, ?_, ?_⟩
      -- the recursive `diff(parent, dom, v, v, idx)` on a realized Good tree
      · intro p idx d v s hcr hg hc hf
        cases v with
        | text t =>
            rw [run]
            dsimp only
            rw [if_neg (by simp [VNode.typeOf]), if_neg (by simp)]
        | frag _ _ _ => simp [Good] at hg
        | elem tag props key ch =>
            rw [run]
            dsimp only
            rw [if_neg (by simp [VNode.typeOf])]
            simp only [Good, Bool.and_eq_true, Bool.not_eq_true',
              decide_eq_true_eq] at hg
            obtain ⟨⟨href, hnd⟩, hgl⟩ := hg
            simp only [corr] at hc
            rw [updateProps_self s (some d) props href]
            rw [ihDch d ch s hcr hgl hnd hc.2
              (by simp only [diffNeed] at hf; omega)]
            dsimp only
            rw [setNode_vn_self s d _ hc.1 hcr]
      -- `diffChildren(parent, ch, ch)`
      · intro d ch s hcr hgl hnd hcl hf
        rw [run]
        have hl := ihLoop d ch (childNodes s d) 0 s hcr hgl hnd rfl hcl
          (by omega) (by simp only [List.drop_zero]; omega)
        simp only [List.drop_zero, revRange] at hl
        rw [hl]
        dsimp only
        exact ihRem d (childNodes s d) (revRange ch.length) 0 ch.length s
          (fun m hm => (mem_revRange m ch.length).mpr hm)
          (by omega) (by have := loopNeed_pos ch; omega)
      -- the `newChildren.forEach` loop, suffix at index `k`
      · intro d full oldEls k s hcr hgl hnd hEls hcl hk hf
        cases hdrop : full.drop k with
        | nil =>
            have hlen : full.length ≤ k := List.drop_eq_nil_iff.mp hdrop
            rw [run]
            rw [show k = full.length from by omega]
        | cons c rest =>
            have hfullk : full[k]? = some c := by
              have h0 : (full.drop k)[0]? = some c := by rw [hdrop]; simp
              rw [List.getElem?_drop] at h0
              simpa using h0
            have hklt : k < full.length := by
              by_contra hcon
              rw [List.getElem?_eq_none (by omega)] at hfullk
              cases hfullk
            have hfneed : diffNeed c + loopNeed rest + 1 ≤ fuel + 1 := by
              have : loopNeed (full.drop k) = diffNeed c + loopNeed rest + 1 := by
                rw [hdrop]; rfl
              omega
            have hm : childMatch (buildOldKeyed full oldEls) full oldEls
                (revRange k) c k = (some c, oldEls[k]?, k :: revRange k) := by
              by_cases hkey : isKeyed c = true
              · have hlast : ∀ j' c', full[j']? = some c' → isKeyed c' →
                    c'.keyOf.jsString = c.keyOf.jsString → j' = k :=
                  fun j' c' hj' hk' he' =>
                    nodup_key_index full hnd j' k c' c hj' hfullk hk' hkey he'
                exact childMatch_keyed _ full oldEls (revRange k) c k hkey _
                  (buildOldKeyed_lookup full oldEls k c hfullk hkey hlast)
              · unfold childMatch
                rw [if_neg hkey,
                  if_pos (And.intro hklt (by rw [mem_revRange]; omega)),
                  hfullk]
                dsimp only
                rw [if_pos (And.intro
                  (by rw [notKeyed_not_truthy c hkey]; simp) rfl)]
            obtain ⟨e, he, hcorr⟩ := corrL_idx s.nodes oldEls full hcl k c hfullk
            rw [run]
            rw [hm]
            dsimp only
            rw [he]
            rw [ihDif d k e c s hcr (GoodL_idx full hgl k c hfullk) hcorr
              (by have := loopNeed_pos rest; omega)]
            dsimp only
            rw [← hEls, he, if_neg (by simp)]
            have hnext := ihLoop d full oldEls (k+1) s hcr hgl hnd hEls hcl
              (by omega)
              (by
                have htl : full.drop (k+1) = rest := by
                  rw [← List.tail_drop, hdrop]; rfl
                rw [htl]
                omega)
            have htl : full.drop (k+1) = rest := by
              rw [← List.tail_drop, hdrop]; rfl
            rw [htl] at hnext
            simp only [revRange] at hnext
            exact hnext
      -- the removal pass over unmatched old children
      · intro d oldEls matched i len s hmem hf h1
        rw [run]
        dsimp only
        by_cases hi : i < len
        · rw [if_pos hi, if_neg (by simp only [Decidable.not_not]; exact hmem i hi)]
          exact ihRem d oldEls matched (i+1) len s hmem (by omega) (by omega)
        · rw [if_neg hi]



def c6v : VNode :=
  .elem "div" [] .nullv
    [.frag [] .nullv [.elem "a" [] .nullv []],
     .frag [] .nullv [.elem "b" [] .nullv []]]

def c6base : DState := { (run 100 (.cde c6v) {}).2 with trace := [] }

def c6r : RV × DState := run 100 (.dif 50 (some 0) (some c6v) (some c6v) 0) c6base

/-- C6 counterexample: materializing a `div` holding two sibling
fragments and diffing it against the identical description is not a
no-op: the positional pairing hands the second fragment the first
fragment's inner element (node 3) as its "start marker", the marker
test fails, and node 3 is replaced by a freshly built fragment. -/
theorem C6_counterexample :
    childNodes c6base 0 = [2, 3, 4, 6, 7, 8] ∧
    c6r.2.crashed = false ∧
    c6r.1.node = some 0 ∧
    Ev.replaced 3 9 0 ∈ c6r.2.trace ∧
    childNodes c6r.2 0 = [2, 10, 11, 12, 4, 6, 7, 8] := by
  exact ⟨by decide, by decide, by decide, by decide, by decide⟩

/-- C6: for a fragment-free, ref-free description tree whose sibling
lists carry pairwise-distinct stringified keys, reconciling a
materialized live tree against the structurally identical description
returns the same live root node and leaves the state entirely
unchanged — zero attribute mutations, zero replacements, zero events. -/
theorem C6_amended (fuel p idx d : Nat) (v : VNode) (s : DState)
    (hcr : s.crashed = false) (hg : Good v) (hc : corr s.nodes d v)
    (hf : diffNeed v ≤ fuel) :
    run fuel (.dif p (some d) (some v) (some v) idx) s =
      ({ node := some d }, s) :=
  (self_diff fuel).1 p idx d v s hcr hg hc hf

def c6wv : VNode :=
  .elem "div" [("id", .str "x")] .nullv [.text "hi", .elem "span" [] (.num 1) []]

def c6wbase : DState :=
  { nodes := fun n =>
      if n = 0 then
        { kind := .delem "div", attrs := [("id", "x")], children := [1, 2],
          vn := some c6wv }
      else if n = 1 then { kind := .dtext, content := "hi" }
      else if n = 2 then
        { kind := .delem "span", children := [],
          vn := some (.elem "span" [] (.num 1) []) }
      else {},
    parentOf := fun n => if n = 1 ∨ n = 2 then some 0 else none,
    fresh := 3 }

/-- C6 witness: the no-op self-diff on a concrete realized tree. -/
theorem C6_amended_witness :
    run 50 (.dif 9 (some 0) (some c6wv) (some c6wv) 0) c6wbase =
      ({ node := some 0 }, c6wbase) :=
  C6_amended 50 9 0 0 c6wv c6wbase (by decide) (by decide)
    ⟨rfl, trivial, ⟨rfl, trivial⟩, trivial⟩ (by decide)

end Pico
